import Mathlib

set_option linter.dupNamespace false

/-!
# Image meter: layout and dimension resolution

A shallow embedding of `Library/MeterImage.cpp` (the image meter of Rainmeter) and
theorems about its dimension resolver (`MeterImage::LoadImage`), its layout engine
(`MeterImage::Draw`), its source name resolver (`MeterImage::Update`) and its choice of
the draw mode (`MeterImage::ReadOptions`).

Modelling conventions.

* A C++ `int` (and a Windows `LONG`) is an `Int`; every arithmetic operator of the
  source is followed by `wrap32`, the reduction to the two's-complement range
  `[-2^31, 2^31)`.
* The canvas is the list of drawing operations issued so far; a call of
  `canvas.DrawBitmap` or `graphics.DrawImage` appends one operation.
* Collaborators that live outside `MeterImage.cpp` (the base class `Meter`, the image
  loader, the arithmetic of `REAL`) are parameters of the functions that use them.
* `REAL` is `Gdiplus::REAL`, the 32-bit `float`; `binary32` is its arithmetic, every
  conversion, quotient and product being rounded to a significand of 24 bits.
-/

namespace Rainmeter

/-! ## Machine integers -/

/-- Reduction of an integer to the range of a 32-bit two's-complement `int`. -/
def wrap32 (n : Int) : Int := (n + 2147483648) % 4294967296 - 2147483648

/-- The values a 32-bit `int` can hold. -/
def IsInt32 (n : Int) : Prop := -2147483648 ≤ n ∧ n ≤ 2147483647

instance (n : Int) : Decidable (IsInt32 n) :=
  inferInstanceAs (Decidable (-2147483648 ≤ n ∧ n ≤ 2147483647))

/-- The operator `+` on `int`. -/
def iadd (a b : Int) : Int := wrap32 (a + b)

/-- The operator `-` on `int`. -/
def isub (a b : Int) : Int := wrap32 (a - b)

/-- The operator `*` on `int`. -/
def imul (a b : Int) : Int := wrap32 (a * b)

/-- The operator `/` on `int`: the quotient is truncated toward zero. Every division of
the source is guarded by a test that its divisor is not zero. -/
def idiv (a b : Int) : Int := wrap32 (Int.tdiv a b)

/-! ## Data model -/

/-- The enumeration `DRAWMODE` of `MeterImage.h`. -/
inductive DRAWMODE where
  | DRAWMODE_NONE
  | DRAWMODE_TILE
  | DRAWMODE_KEEPRATIO
  | DRAWMODE_KEEPRATIOANDCROP
  deriving DecidableEq, Repr

open DRAWMODE

/-- The Windows structure `RECT`, used for `m_ScaleMargins`. -/
structure RECT where
  left : Int
  top : Int
  right : Int
  bottom : Int
  deriving DecidableEq, Repr

/-- The GDI+ class `Rect`, built by `Rect(x, y, width, height)`. -/
structure Rect where
  X : Int
  Y : Int
  Width : Int
  Height : Int
  deriving DecidableEq, Repr

/-- Area of a rectangle, as a mathematical integer. -/
def Rect.area (r : Rect) : Int := r.Width * r.Height

/-- A loaded bitmap, reduced to what the meter reads from it: the values of
`GetWidth()` and `GetHeight()` once stored in an `int`. -/
structure Bitmap where
  width : Int
  height : Int
  deriving DecidableEq, Repr

/-- One drawing operation received by the canvas: the source rectangle of the bitmap,
the destination rectangle on the canvas, and whether the source is repeated
(`WrapModeTile`) instead of stretched. -/
structure DrawOp where
  src : Rect
  dst : Rect
  tiled : Bool
  deriving DecidableEq, Repr

/-- The canvas, as the sequence of operations it has received. -/
abbrev Canvas := List DrawOp

/-- The call `canvas.DrawBitmap(bitmap, dstRect, srcRect)`. -/
def Canvas.DrawBitmap (canvas : Canvas) (dstRect srcRect : Rect) : Canvas :=
  canvas ++ [{ src := srcRect, dst := dstRect, tiled := false }]

/-- The call `graphics.DrawImage(bitmap, r, srcx, srcy, srcw, srch, UnitPixel, &imgAttr)`
with the wrap mode of `imgAttr` set to `WrapModeTile`. -/
def Canvas.DrawImageTiled (canvas : Canvas) (r : Rect) (srcx srcy srcw srch : Int) : Canvas :=
  canvas ++ [{ src := ⟨srcx, srcy, srcw, srch⟩, dst := r, tiled := true }]

/-- A bound measure, reduced to what the meter reads from it: the string returned by
`GetStringOrFormattedValue(AUTOSCALE_OFF, 1, 0, false)`. -/
structure Measure where
  value : String
  deriving DecidableEq, Repr

/-- The members of `MeterImage` (its own and those inherited from `Meter`) that the
methods of `MeterImage.cpp` read or write. `m_X` and `m_Y` stand for the results of
`GetX()` and `GetY()`; `m_Image` is `none` when `m_Image.IsLoaded()` is false and is
the bitmap returned by `m_Image.GetImage()` otherwise. -/
structure MeterImage where
  m_X : Int
  m_Y : Int
  m_W : Int
  m_H : Int
  m_WDefined : Bool
  m_HDefined : Bool
  m_DrawMode : DRAWMODE
  m_ScaleMargins : RECT
  m_Image : Option Bitmap
  m_ImageName : String := ""
  m_ImageNameResult : String := ""
  m_Measures : List Measure := []
  m_DynamicVariables : Bool := false
  m_NeedsRedraw : Bool := false
  m_Initialized : Bool := false
  deriving DecidableEq, Repr

/-- Every `int` member holds a value of the type `int`. -/
def MeterImage.WellTyped (m : MeterImage) : Prop :=
  IsInt32 m.m_X ∧ IsInt32 m.m_Y ∧ IsInt32 m.m_W ∧ IsInt32 m.m_H ∧
  IsInt32 m.m_ScaleMargins.left ∧ IsInt32 m.m_ScaleMargins.top ∧
  IsInt32 m.m_ScaleMargins.right ∧ IsInt32 m.m_ScaleMargins.bottom ∧
  ∀ b, m.m_Image = some b → IsInt32 b.width ∧ IsInt32 b.height

/-! ## The arithmetic of `REAL` -/

/-- The operations `MeterImage::Draw` performs on values of the type `REAL`, a type that
is declared outside `MeterImage.cpp`: conversion from `int`, `/`, `*`, `!=`, `>` and the
conversion `(int)`. -/
structure RealArith where
  R : Type
  ofInt : Int → R
  div : R → R → R
  mul : R → R → R
  ne : R → R → Bool
  gt : R → R → Bool
  toInt : R → Int

/-! ### `REAL` as the IEEE 754 binary32 format

`MeterImage.cpp` opens the namespace `Gdiplus` (line 28), so `REAL` is `Gdiplus::REAL`,
the 32-bit `float`. A finite value of that type is a number `m * 2 ^ e` whose significand
`m` has at most 24 bits, and every operation returns the exact result rounded to the
nearest such number, a tie going to the even significand. The exponent is left unbounded:
`Draw` converts values of the type `int`, forms quotients of two of them, and one product
or quotient of an `int` with such a quotient, so every non-zero value it computes has a
magnitude between `2 ^ -31` and `2 ^ 62`, inside the range of the normal binary32
numbers. -/

/-- A finite value of the type `REAL`: the number `m * 2 ^ e`. -/
structure Real32 where
  m : Int
  e : Int
  deriving DecidableEq, Repr

/-- The number of bits of `n` below its leading bit, by halving at most `fuel` times. -/
def log2Fuel : Nat → Nat → Nat
  | 0, _ => 0
  | fuel + 1, n => if n < 2 then 0 else log2Fuel fuel (n / 2) + 1

/-- The position of the leading bit of a positive `n`: the largest `k` with `2 ^ k ≤ n`. -/
def ilog2 (n : Nat) : Nat := log2Fuel n n

/-- The integer nearest to `N / D`, a tie going to the even one. -/
def roundNearestEven (N D : Nat) : Nat :=
  if 2 * (N % D) > D ∨ (2 * (N % D) = D ∧ (N / D) % 2 = 1) then N / D + 1 else N / D

/-- Scaling of the positive quotient `p / q` by a power of two, to `(N, D, e)` with
`p / q = (N / D) * 2 ^ e` and `2 ^ 23 ≤ N / D < 2 ^ 24`, so that the integer part of
`N / D` has exactly 24 bits. -/
def scale24 (p q : Nat) : Nat × Nat × Int :=
  let a := (ilog2 q + 24) - ilog2 p
  let b := ilog2 p - (ilog2 q + 24)
  let N := p * 2 ^ a
  let D := q * 2 ^ b
  if N / D < 2 ^ 24 then (N, D, (b : Int) - a) else (N, 2 * D, (b : Int) - a + 1)

/-- Rounding of the positive quotient `P / Q` to a significand of 24 bits, to nearest, a
tie going to the even significand: the pair `(M, e)` stands for `M * 2 ^ e`. The quotient
is first reduced to lowest terms. -/
def round24 (P Q : Nat) : Nat × Int :=
  if P = 0 ∨ Q = 0 then (0, 0)
  else
    let s := scale24 (P / Nat.gcd P Q) (Q / Nat.gcd P Q)
    (roundNearestEven s.1 s.2.1, s.2.2)

/-- The `REAL` nearest to the quotient `P / Q`, with the given sign. -/
def Real32.round (negative : Bool) (P Q : Nat) : Real32 :=
  let r := round24 P Q
  ⟨if negative then -(r.1 : Int) else r.1, r.2⟩

/-- The conversion `(REAL)n` of an `int`, also applied implicitly to the `int` operand of
a mixed expression. -/
def Real32.ofInt (n : Int) : Real32 := Real32.round (decide (n < 0)) n.natAbs 1

/-- The operator `/` on `REAL`. `Draw` never divides by a zero `REAL`: the divisors are
the conversions of the non-zero `imageH` and `m_H` and the quotient `meterRatio` of the
non-zero `m_W`. -/
def Real32.div (a b : Real32) : Real32 :=
  Real32.round (decide (a.m < 0) != decide (b.m < 0))
    (a.m.natAbs * 2 ^ (a.e - b.e).toNat) (b.m.natAbs * 2 ^ (b.e - a.e).toNat)

/-- The operator `*` on `REAL`. -/
def Real32.mul (a b : Real32) : Real32 :=
  Real32.round (decide (a.m < 0) != decide (b.m < 0))
    (a.m.natAbs * b.m.natAbs * 2 ^ (a.e + b.e).toNat) (2 ^ (-(a.e + b.e)).toNat)

/-- The operator `<` on `REAL`: both values are brought to the smaller exponent. -/
def Real32.lt (a b : Real32) : Bool :=
  decide (a.m * 2 ^ (a.e - min a.e b.e).toNat < b.m * 2 ^ (b.e - min a.e b.e).toNat)

/-- The operator `>` on `REAL`. -/
def Real32.gt (a b : Real32) : Bool := Real32.lt b a

/-- The operator `!=` on `REAL`. -/
def Real32.ne (a b : Real32) : Bool := Real32.lt a b || Real32.lt b a

/-- The conversion `(int)` of a `REAL`: truncation toward zero. For a value outside the
range of `int`, where C++ leaves the conversion undefined, the result is `INT_MIN`, the
value the conversion instruction of the x86 (`cvttss2si`) returns. -/
def Real32.toInt (a : Real32) : Int :=
  let t := if 0 ≤ a.e then a.m * 2 ^ a.e.toNat else Int.tdiv a.m (2 ^ (-a.e).toNat)
  if -2147483648 ≤ t ∧ t ≤ 2147483647 then t else -2147483648

/-- The arithmetic of `REAL`: IEEE 754 binary32 with rounding to nearest, ties to even. -/
def binary32 : RealArith where
  R := Real32
  ofInt := Real32.ofInt
  div := Real32.div
  mul := Real32.mul
  ne := Real32.ne
  gt := Real32.gt
  toInt := Real32.toInt

/-- The quotient `a / (REAL)b` of two `int` values, as `Draw` computes `imageRatio` and
`meterRatio`. -/
def Real32.quot (a b : Int) : Real32 := Real32.div (Real32.ofInt a) (Real32.ofInt b)

/-! ### Exact values of `REAL` numbers -/

/-- The exact value of a rounded pair. -/
def val24 (r : Nat × Int) : ℚ := (r.1 : ℚ) * (2 : ℚ) ^ r.2

/-- The exact value of a `REAL`. -/
def Real32.toRat (a : Real32) : ℚ := (a.m : ℚ) * (2 : ℚ) ^ a.e

/-- The non-negative numbers with a significand of at most 24 bits. -/
def IsFloat24 (f : ℚ) : Prop := ∃ (m : ℕ) (e : ℤ), m ≤ 2 ^ 24 ∧ f = (m : ℚ) * (2 : ℚ) ^ e

/-- The number `v` has a significand of at most 24 bits and no such number is nearer
to `x`. -/
def Nearest24 (v x : ℚ) : Prop := IsFloat24 v ∧ ∀ f, IsFloat24 f → |v - x| ≤ |f - x|

/-- The value `a` is the rounding of the positive exact number `x`. -/
def RoundsTo (a : Real32) (x : ℚ) : Prop :=
  ∃ P Q : ℕ, 0 < P ∧ 0 < Q ∧ (P : ℚ) / (Q : ℚ) = x ∧ a = Real32.round false P Q

/-! ## `MeterImage::LoadImage` -/

/-- The call `m_Image.LoadImage(imageName, bLoadAlways)` of the image loader: from the
image held so far, the name and the flag, the image held afterwards. -/
abbrev Loader := Option Bitmap → String → Bool → Option Bitmap

/-- The method `MeterImage::LoadImage`. -/
def MeterImage.LoadImage (load : Loader) (m : MeterImage) (imageName : String)
    (bLoadAlways : Bool) : MeterImage :=
  let m := { m with m_Image := load m.m_Image imageName bLoadAlways }
  match m.m_Image with
  | some bitmap =>
    let imageW := bitmap.width
    let imageH := bitmap.height
    if m.m_WDefined then
      if !m.m_HDefined then
        { m with m_H := if imageW == 0 then 0
                        else if m.m_DrawMode == DRAWMODE_TILE then imageH
                        else idiv (imul m.m_W imageH) imageW }
      else m
    else
      if m.m_HDefined then
        { m with m_W := if imageH == 0 then 0
                        else if m.m_DrawMode == DRAWMODE_TILE then imageW
                        else idiv (imul m.m_H imageW) imageH }
      else
        { m with m_W := imageW, m_H := imageH }
  | none => m

/-! ## `MeterImage::Draw` -/

/-- The method `MeterImage::Draw`. `baseDraw` is the result of `Meter::Draw(canvas)` and
`canvas` is the canvas once that call has returned; the result is the returned `bool`
and the canvas after the whole call. -/
def MeterImage.Draw (A : RealArith) (m : MeterImage) (baseDraw : Bool) (canvas : Canvas) :
    Bool × Canvas :=
  if !baseDraw then (false, canvas)
  else
    match m.m_Image with
    | some drawBitmap =>
      let imageW := drawBitmap.width
      let imageH := drawBitmap.height
      if imageW == 0 || imageH == 0 || m.m_W == 0 || m.m_H == 0 then (true, canvas)
      else
        let x := m.m_X
        let y := m.m_Y
        let drawW := m.m_W
        let drawH := m.m_H
        if drawW == imageW && drawH == imageH &&
            m.m_ScaleMargins.left == 0 && m.m_ScaleMargins.top == 0 &&
            m.m_ScaleMargins.right == 0 && m.m_ScaleMargins.bottom == 0 then
          (true, canvas.DrawBitmap ⟨x, y, drawW, drawH⟩ ⟨0, 0, imageW, imageH⟩)
        else if m.m_DrawMode == DRAWMODE_TILE then
          let r : Rect := ⟨x, y, drawW, drawH⟩
          (true, canvas.DrawImageTiled r 0 0 drawW drawH)
        else if m.m_DrawMode == DRAWMODE_KEEPRATIO ||
            m.m_DrawMode == DRAWMODE_KEEPRATIOANDCROP then
          let cropX : Int := 0
          let cropY : Int := 0
          let cropW := imageW
          let cropH := imageH
          let (x, y, drawW, drawH, cropX, cropY, cropW, cropH) :=
            if m.m_WDefined && m.m_HDefined then
              let imageRatio := A.div (A.ofInt imageW) (A.ofInt imageH)
              let meterRatio := A.div (A.ofInt m.m_W) (A.ofInt m.m_H)
              if A.ne imageRatio meterRatio then
                if m.m_DrawMode == DRAWMODE_KEEPRATIO then
                  if A.gt imageRatio meterRatio then
                    let drawH := idiv (imul m.m_W imageH) imageW
                    let y := iadd y (idiv (isub m.m_H drawH) 2)
                    (x, y, drawW, drawH, cropX, cropY, cropW, cropH)
                  else
                    let drawW := idiv (imul m.m_H imageW) imageH
                    let x := iadd x (idiv (isub m.m_W drawW) 2)
                    (x, y, drawW, drawH, cropX, cropY, cropW, cropH)
                else
                  if A.gt imageRatio meterRatio then
                    let cropW := A.toInt (A.mul (A.ofInt imageH) meterRatio)
                    let cropX := idiv (isub imageW cropW) 2
                    (x, y, drawW, drawH, cropX, cropY, cropW, cropH)
                  else
                    let cropH := A.toInt (A.div (A.ofInt imageW) meterRatio)
                    let cropY := idiv (isub imageH cropH) 2
                    (x, y, drawW, drawH, cropX, cropY, cropW, cropH)
              else (x, y, drawW, drawH, cropX, cropY, cropW, cropH)
            else (x, y, drawW, drawH, cropX, cropY, cropW, cropH)
          let r : Rect := ⟨x, y, drawW, drawH⟩
          (true, canvas.DrawBitmap r ⟨cropX, cropY, cropW, cropH⟩)
        else
          let m_ := m.m_ScaleMargins
          let canvas :=
            if m_.top > 0 then
              let canvas :=
                if m_.left > 0 then
                  -- Top-Left
                  canvas.DrawBitmap ⟨x, y, m_.left, m_.top⟩ ⟨0, 0, m_.left, m_.top⟩
                else canvas
              -- Top
              let canvas :=
                canvas.DrawBitmap
                  ⟨iadd x m_.left, y, isub (isub drawW m_.left) m_.right, m_.top⟩
                  ⟨m_.left, 0, isub (isub imageW m_.left) m_.right, m_.top⟩
              if m_.right > 0 then
                -- Top-Right
                canvas.DrawBitmap
                  ⟨isub (iadd x drawW) m_.right, y, m_.right, m_.top⟩
                  ⟨isub imageW m_.right, 0, m_.right, m_.top⟩
              else canvas
            else canvas
          let canvas :=
            if m_.left > 0 then
              -- Left
              canvas.DrawBitmap
                ⟨x, iadd y m_.top, m_.left, isub (isub drawH m_.top) m_.bottom⟩
                ⟨0, m_.top, m_.left, isub (isub imageH m_.top) m_.bottom⟩
            else canvas
          -- Center
          let canvas :=
            canvas.DrawBitmap
              ⟨iadd x m_.left, iadd y m_.top,
                isub (isub drawW m_.left) m_.right, isub (isub drawH m_.top) m_.bottom⟩
              ⟨m_.left, m_.top,
                isub (isub imageW m_.left) m_.right, isub (isub imageH m_.top) m_.bottom⟩
          let canvas :=
            if m_.right > 0 then
              -- Right
              canvas.DrawBitmap
                ⟨isub (iadd x drawW) m_.right, iadd y m_.top,
                  m_.right, isub (isub drawH m_.top) m_.bottom⟩
                ⟨isub imageW m_.right, m_.top,
                  m_.right, isub (isub imageH m_.top) m_.bottom⟩
            else canvas
          let canvas :=
            if m_.bottom > 0 then
              let canvas :=
                if m_.left > 0 then
                  -- Bottom-Left
                  canvas.DrawBitmap
                    ⟨x, isub (iadd y drawH) m_.bottom, m_.left, m_.bottom⟩
                    ⟨0, isub imageH m_.bottom, m_.left, m_.bottom⟩
                else canvas
              -- Bottom
              let canvas :=
                canvas.DrawBitmap
                  ⟨iadd x m_.left, isub (iadd y drawH) m_.bottom,
                    isub (isub drawW m_.left) m_.right, m_.bottom⟩
                  ⟨m_.left, isub imageH m_.bottom,
                    isub (isub imageW m_.left) m_.right, m_.bottom⟩
              if m_.right > 0 then
                -- Bottom-Right
                canvas.DrawBitmap
                  ⟨isub (iadd x drawW) m_.right, isub (iadd y drawH) m_.bottom,
                    m_.right, m_.bottom⟩
                  ⟨isub imageW m_.right, isub imageH m_.bottom, m_.right, m_.bottom⟩
              else canvas
            else canvas
          (true, canvas)
    | none => (true, canvas)

/-- The operations one call of `Draw` sends to an empty canvas. -/
def emitted (A : RealArith) (m : MeterImage) (baseDraw : Bool) : List DrawOp :=
  (MeterImage.Draw A m baseDraw []).2

/-! ## `MeterImage::LoadImage` with checked division -/

/-- The operator `/` on `int` with its failure made explicit: no result when the divisor
is 0. -/
def idivChecked (a b : Int) : Option Int :=
  if b = 0 then none else some (idiv a b)

/-- The method `MeterImage::LoadImage` with every division checked: no result when some
division it evaluates has the divisor 0. -/
def MeterImage.LoadImageChecked (load : Loader) (m : MeterImage) (imageName : String)
    (bLoadAlways : Bool) : Option MeterImage :=
  let m := { m with m_Image := load m.m_Image imageName bLoadAlways }
  match m.m_Image with
  | some bitmap =>
    let imageW := bitmap.width
    let imageH := bitmap.height
    if m.m_WDefined then
      if !m.m_HDefined then
        if imageW == 0 then some { m with m_H := 0 }
        else if m.m_DrawMode == DRAWMODE_TILE then some { m with m_H := imageH }
        else (idivChecked (imul m.m_W imageH) imageW).map (fun h => { m with m_H := h })
      else some m
    else
      if m.m_HDefined then
        if imageH == 0 then some { m with m_W := 0 }
        else if m.m_DrawMode == DRAWMODE_TILE then some { m with m_W := imageW }
        else (idivChecked (imul m.m_H imageW) imageH).map (fun w => { m with m_W := w })
      else
        some { m with m_W := imageW, m_H := imageH }
  | none => some m

/-! ## `MeterImage::Initialize` and `MeterImage::ReadOptions` -/

/-- The method `MeterImage::Initialize`; `m` is the meter once `Meter::Initialize()` has
returned. -/
def MeterImage.Initialize (load : Loader) (m : MeterImage) : MeterImage :=
  if m.m_Measures.isEmpty && !m.m_DynamicVariables && !m.m_ImageName.isEmpty then
    let m := { m with m_ImageNameResult := m.m_ImageName }
    m.LoadImage load m.m_ImageName true
  else m

/-- The values the configuration parser returns for the options `MeterImage::ReadOptions`
reads from the section of the meter: `ReadString` for `ImageName`, `ReadInt` for `Tile`
and `PreserveAspectRatio`, `ReadRECT` for `ScaleMargins`. -/
structure ConfigParser where
  ImageName : String
  Tile : Int
  PreserveAspectRatio : Int
  ScaleMargins : RECT
  deriving DecidableEq, Repr

/-- The method `MeterImage::ReadOptions`; `m` is the meter once `Meter::ReadOptions` has
returned. The deprecated option `Path` and the tinting options read by
`m_Image.ReadOptions` belong to the image loader and are not part of the state. -/
def MeterImage.ReadOptions (load : Loader) (m : MeterImage) (parser : ConfigParser) :
    MeterImage :=
  let m := { m with m_ImageName := parser.ImageName }
  let mode := parser.Tile
  let m :=
    if mode != 0 then { m with m_DrawMode := DRAWMODE_TILE }
    else
      let mode := parser.PreserveAspectRatio
      if mode == 0 then { m with m_DrawMode := DRAWMODE_NONE }
      else if mode == 2 then { m with m_DrawMode := DRAWMODE_KEEPRATIOANDCROP }
      else { m with m_DrawMode := DRAWMODE_KEEPRATIO }
  let m := { m with m_ScaleMargins := parser.ScaleMargins }
  if m.m_Initialized && m.m_Measures.isEmpty && !m.m_DynamicVariables then
    let m := m.Initialize load
    { m with m_NeedsRedraw := true }
  else m

/-! ## `MeterImage::Update` -/

/-- The call `ReplaceMeasures(str, AUTOSCALE_OFF)` of the base class `Meter`: from the
bound measures and the string, the string after the substitution and the returned
`bool`, which tells whether something was replaced. -/
abbrev Replacer := List Measure → String → String × Bool

/-- The characters of the C string `s.c_str()`: those before the first null character. -/
def c_str (s : String) : List Char :=
  s.toList.takeWhile (fun c => c != Char.ofNat 0)

/-- The call `wcscmp(a, b)` on two C strings, reduced to whether its result is 0. -/
def wcscmp (a b : List Char) : Int := if a = b then 0 else 1

/-- The method `MeterImage::Update`. `baseUpdate` is the result of `Meter::Update()` and
`m` is the meter once that call has returned; the result is the returned `bool` and the
meter after the whole call. -/
def MeterImage.Update (load : Loader) (ReplaceMeasures : Replacer) (m : MeterImage)
    (baseUpdate : Bool) : Bool × MeterImage :=
  if baseUpdate then
    if !m.m_Measures.isEmpty || m.m_DynamicVariables then
      -- Store the current values so we know if the image needs to be updated
      let oldResult := m.m_ImageNameResult
      let m :=
        match m.m_Measures with
        | first :: _ =>  -- read from the measures
          if m.m_ImageName.isEmpty then
            { m with m_ImageNameResult := first.value }
          else
            let m := { m with m_ImageNameResult := m.m_ImageName }
            let replaced := ReplaceMeasures m.m_Measures m.m_ImageNameResult
            if !replaced.2 then
              -- ImageName doesn't contain any measures, so use the result of MeasureName.
              { m with m_ImageNameResult := first.value }
            else { m with m_ImageNameResult := replaced.1 }
        | [] =>  -- read from the skin
          { m with m_ImageNameResult := m.m_ImageName }
      (true, m.LoadImage load m.m_ImageNameResult
        (wcscmp (c_str oldResult) (c_str m.m_ImageNameResult) != 0))
    else if m.m_NeedsRedraw then
      (true, { m with m_NeedsRedraw := false })
    else (false, m)
  else (false, m)

/-! ## Rectangles as sets of pixels -/

/-- Two rectangles overlap when they have a pixel in common: both have a positive width
and height and their horizontal and vertical extents intersect. -/
def Rect.Overlaps (r s : Rect) : Prop :=
  0 < r.Width ∧ 0 < r.Height ∧ 0 < s.Width ∧ 0 < s.Height ∧
  r.X < s.X + s.Width ∧ s.X < r.X + r.Width ∧
  r.Y < s.Y + s.Height ∧ s.Y < r.Y + r.Height

instance (r s : Rect) : Decidable (r.Overlaps s) :=
  inferInstanceAs (Decidable (0 < r.Width ∧ 0 < r.Height ∧ 0 < s.Width ∧ 0 < s.Height ∧
    r.X < s.X + s.Width ∧ s.X < r.X + r.Width ∧
    r.Y < s.Y + s.Height ∧ s.Y < r.Y + r.Height))

/-- Two operations are disjoint: neither their destination rectangles nor their source
rectangles overlap. -/
def DrawOp.Disjoint (a b : DrawOp) : Prop :=
  ¬ a.dst.Overlaps b.dst ∧ ¬ a.src.Overlaps b.src

instance (a b : DrawOp) : Decidable (a.Disjoint b) :=
  inferInstanceAs (Decidable (¬ a.dst.Overlaps b.dst ∧ ¬ a.src.Overlaps b.src))

/-- The source rectangle `r` moved by the origin `(x, y)` of the meter, in `int`
arithmetic. -/
def Rect.translate (r : Rect) (x y : Int) : Rect :=
  ⟨iadd x r.X, iadd y r.Y, r.Width, r.Height⟩

/-! ## Reference definition of the dimension resolver -/

/-- The dimension resolver as section 4.1 of the specification words it:
`resolve(natural, widthExplicit, heightExplicit, mode, current)`, where sizes are pairs
(width, height) and the arithmetic is that of `int`. -/
def resolveSpec (natural : Int × Int) (widthExplicit heightExplicit : Bool) (mode : DRAWMODE)
    (current : Int × Int) : Int × Int :=
  match widthExplicit, heightExplicit with
  | true, true => current
  | true, false =>
    (current.1,
      if natural.1 = 0 then 0
      else if mode = DRAWMODE_TILE then natural.2
      else idiv (imul current.1 natural.2) natural.1)
  | false, true =>
    (if natural.2 = 0 then 0
      else if mode = DRAWMODE_TILE then natural.1
      else idiv (imul current.2 natural.1) natural.2,
      current.2)
  | false, false => natural

/-! ## Reference definitions of the aspect-preserving layouts -/

/-- Truncation of a rational toward zero. -/
def truncQ (q : ℚ) : Int := Int.tdiv q.num q.den

/-- Truncation of an exact number toward zero, then storage in an `int`. -/
def toInt32 (q : ℚ) : Int := wrap32 (truncQ q)

/-- The destination rectangle of mode KeepRatio as section 4.3 of the specification
words it, for a meter at `(x, y)` of size `(W, H)` and a bitmap of natural size
`(iw, ih)`: the two ratios are compared as exact numbers; a relatively wider image gets
the height `W * ih / iw`, centred vertically; a relatively narrower one the width
`H * iw / ih`, centred horizontally; otherwise the full target rectangle. -/
def keepRatioDestSpec (x y W H iw ih : Int) (bothExplicit : Bool) : Rect :=
  if bothExplicit = true ∧ (iw : ℚ) / (ih : ℚ) > (W : ℚ) / (H : ℚ) then
    let dh := idiv (imul W ih) iw
    ⟨x, iadd y (idiv (isub H dh) 2), W, dh⟩
  else if bothExplicit = true ∧ (iw : ℚ) / (ih : ℚ) < (W : ℚ) / (H : ℚ) then
    let dw := idiv (imul H iw) ih
    ⟨iadd x (idiv (isub W dw) 2), y, dw, H⟩
  else ⟨x, y, W, H⟩

/-- The source rectangle of mode KeepRatioAndCrop as section 4.3 of the specification
words it, for a meter of size `(W, H)` and a bitmap of natural size `(iw, ih)` whose
ratios differ: a relatively wider image keeps its height and the centred width
`trunc (ih * (W / H))`; otherwise it keeps its width and the centred height
`trunc (iw / (W / H))`. -/
def keepRatioAndCropSrcSpec (W H iw ih : Int) : Rect :=
  if (iw : ℚ) / (ih : ℚ) > (W : ℚ) / (H : ℚ) then
    let cropW := toInt32 ((ih : ℚ) * ((W : ℚ) / (H : ℚ)))
    ⟨idiv (isub iw cropW) 2, 0, cropW, ih⟩
  else
    let cropH := toInt32 ((iw : ℚ) / ((W : ℚ) / (H : ℚ)))
    ⟨0, idiv (isub ih cropH) 2, iw, cropH⟩

/-- The destination rectangle of mode KeepRatio with the two ratios computed and compared
in `REAL`, for a meter at `(x, y)` of size `(W, H)` and a bitmap of natural size
`(iw, ih)`: when the ratio of the image is the greater one, the height `W * ih / iw`,
centred vertically; when it is the smaller one, the width `H * iw / ih`, centred
horizontally; otherwise, and when the two dimensions are not both explicit, the full
target rectangle. -/
def keepRatioDestReal (x y W H iw ih : Int) (bothExplicit : Bool) : Rect :=
  if bothExplicit = true ∧ Real32.gt (Real32.quot iw ih) (Real32.quot W H) = true then
    let dh := idiv (imul W ih) iw
    ⟨x, iadd y (idiv (isub H dh) 2), W, dh⟩
  else if bothExplicit = true ∧ Real32.lt (Real32.quot iw ih) (Real32.quot W H) = true then
    let dw := idiv (imul H iw) ih
    ⟨iadd x (idiv (isub W dw) 2), y, dw, H⟩
  else ⟨x, y, W, H⟩

/-- The source rectangle of mode KeepRatioAndCrop with the ratios, the product and the
quotient computed in `REAL`, for a meter of size `(W, H)` and a bitmap of natural size
`(iw, ih)` whose ratios differ: when the ratio of the image is the greater one, the full
height and the centred width `(int)(ih * meterRatio)`; otherwise the full width and the
centred height `(int)(iw / meterRatio)`, where `meterRatio` is `W / (REAL)H`. -/
def keepRatioAndCropSrcReal (W H iw ih : Int) : Rect :=
  if Real32.gt (Real32.quot iw ih) (Real32.quot W H) = true then
    let cropW := Real32.toInt (Real32.mul (Real32.ofInt ih) (Real32.quot W H))
    ⟨idiv (isub iw cropW) 2, 0, cropW, ih⟩
  else
    let cropH := Real32.toInt (Real32.div (Real32.ofInt iw) (Real32.quot W H))
    ⟨0, idiv (isub ih cropH) 2, iw, cropH⟩

/-! ## Reference definition of the nine-slice layout -/

/-- The nine regions of the nine-slice layout in the order section 4.3 of the
specification fixes (top-left, top, top-right, left, centre, right, bottom-left, bottom,
bottom-right), each with the condition under which it is drawn, for a meter at `(x, y)`
of size `(W, H)`, a bitmap of natural size `(iw, ih)` and the margins `(l, t, r, b)`; the
result keeps the regions whose condition holds. The rectangles of the corners and edges
are those of the source. -/
def nineSliceSpec (x y W H iw ih l t r b : Int) : List DrawOp :=
  (([ (decide (t > 0 ∧ l > 0),
        { src := ⟨0, 0, l, t⟩, dst := ⟨x, y, l, t⟩, tiled := false }),
      (decide (t > 0),
        { src := ⟨l, 0, isub (isub iw l) r, t⟩,
          dst := ⟨iadd x l, y, isub (isub W l) r, t⟩, tiled := false }),
      (decide (t > 0 ∧ r > 0),
        { src := ⟨isub iw r, 0, r, t⟩,
          dst := ⟨isub (iadd x W) r, y, r, t⟩, tiled := false }),
      (decide (l > 0),
        { src := ⟨0, t, l, isub (isub ih t) b⟩,
          dst := ⟨x, iadd y t, l, isub (isub H t) b⟩, tiled := false }),
      (true,
        { src := ⟨l, t, isub (isub iw l) r, isub (isub ih t) b⟩,
          dst := ⟨iadd x l, iadd y t, isub (isub W l) r, isub (isub H t) b⟩,
          tiled := false }),
      (decide (r > 0),
        { src := ⟨isub iw r, t, r, isub (isub ih t) b⟩,
          dst := ⟨isub (iadd x W) r, iadd y t, r, isub (isub H t) b⟩, tiled := false }),
      (decide (b > 0 ∧ l > 0),
        { src := ⟨0, isub ih b, l, b⟩,
          dst := ⟨x, isub (iadd y H) b, l, b⟩, tiled := false }),
      (decide (b > 0),
        { src := ⟨l, isub ih b, isub (isub iw l) r, b⟩,
          dst := ⟨iadd x l, isub (iadd y H) b, isub (isub W l) r, b⟩, tiled := false }),
      (decide (b > 0 ∧ r > 0),
        { src := ⟨isub iw r, isub ih b, r, b⟩,
          dst := ⟨isub (iadd x W) r, isub (iadd y H) b, r, b⟩, tiled := false })
    ] : List (Bool × DrawOp)).filter (fun p => p.1)).map (fun p => p.2)

/-- The nine regions of `nineSliceSpec`, each with the condition under which it is drawn,
before the regions whose condition fails are dropped. -/
def nineSliceRegions (x y W H iw ih l t r b : Int) : List (Bool × DrawOp) :=
  [ (decide (t > 0 ∧ l > 0),
      { src := ⟨0, 0, l, t⟩, dst := ⟨x, y, l, t⟩, tiled := false }),
    (decide (t > 0),
      { src := ⟨l, 0, isub (isub iw l) r, t⟩,
        dst := ⟨iadd x l, y, isub (isub W l) r, t⟩, tiled := false }),
    (decide (t > 0 ∧ r > 0),
      { src := ⟨isub iw r, 0, r, t⟩,
        dst := ⟨isub (iadd x W) r, y, r, t⟩, tiled := false }),
    (decide (l > 0),
      { src := ⟨0, t, l, isub (isub ih t) b⟩,
        dst := ⟨x, iadd y t, l, isub (isub H t) b⟩, tiled := false }),
    (true,
      { src := ⟨l, t, isub (isub iw l) r, isub (isub ih t) b⟩,
        dst := ⟨iadd x l, iadd y t, isub (isub W l) r, isub (isub H t) b⟩,
        tiled := false }),
    (decide (r > 0),
      { src := ⟨isub iw r, t, r, isub (isub ih t) b⟩,
        dst := ⟨isub (iadd x W) r, iadd y t, r, isub (isub H t) b⟩, tiled := false }),
    (decide (b > 0 ∧ l > 0),
      { src := ⟨0, isub ih b, l, b⟩,
        dst := ⟨x, isub (iadd y H) b, l, b⟩, tiled := false }),
    (decide (b > 0),
      { src := ⟨l, isub ih b, isub (isub iw l) r, b⟩,
        dst := ⟨iadd x l, isub (iadd y H) b, isub (isub W l) r, b⟩, tiled := false }),
    (decide (b > 0 ∧ r > 0),
      { src := ⟨isub iw r, isub ih b, r, b⟩,
        dst := ⟨isub (iadd x W) r, isub (iadd y H) b, r, b⟩, tiled := false }) ]

/-- The kinds of region of the nine-slice layout: a corner, the top or bottom edge, the
left or right edge, the centre. -/
inductive SliceKind where
  | corner
  | topBottomEdge
  | leftRightEdge
  | center
  deriving DecidableEq, Repr

/-- The kinds of the nine regions, in the order in which they are drawn. -/
def nineSliceKinds : List SliceKind :=
  [.corner, .topBottomEdge, .corner, .leftRightEdge, .center, .leftRightEdge,
    .corner, .topBottomEdge, .corner]

/-- What a region of the given kind keeps from its source rectangle: a corner its width
and height, the top or bottom edge its height, the left or right edge its width. -/
def DrawOp.Unscaled (kind : SliceKind) (op : DrawOp) : Prop :=
  match kind with
  | .corner => op.dst.Width = op.src.Width ∧ op.dst.Height = op.src.Height
  | .topBottomEdge => op.dst.Height = op.src.Height
  | .leftRightEdge => op.dst.Width = op.src.Width
  | .center => True

/-- The nine regions with their kinds. -/
def nineSliceTagged (x y W H iw ih l t r b : Int) : List (SliceKind × Bool × DrawOp) :=
  List.zip nineSliceKinds (nineSliceRegions x y W H iw ih l t r b)

/-! ## Reference definition of the source name resolver -/

/-- The source name resolver as section 4.2 of the specification words it: the template
verbatim when no source is bound; the formatted value of the first bound source when
the template is empty; otherwise the template after substitution when the substitution
replaced something, and the value of the first bound source when it did not. -/
def resolveIdentifierSpec (template : String) (boundSources : List Measure)
    (substitute : Replacer) : String :=
  match boundSources with
  | [] => template
  | first :: _ =>
    if template = "" then first.value
    else if (substitute boundSources template).2 = true then
      (substitute boundSources template).1
    else first.value

/-- A string without a null character, as are the strings read from a configuration file
or from a C string. -/
def NulFree (s : String) : Prop := Char.ofNat 0 ∉ s.toList

instance (s : String) : Decidable (NulFree s) :=
  inferInstanceAs (Decidable (Char.ofNat 0 ∉ s.toList))

/-! ## Reference definition of staying in bounds -/

/-- An operation stays in bounds, for a meter at `(x, y)` of size `(W, H)` and a bitmap of
natural size `(iw, ih)`: the offsets of its destination from the origin of the meter
(in `int` arithmetic) are at least 0 and offset plus size is at most the target size on
both axes; the offsets of its source are at least 0 and offset plus size is at most the
natural size on both axes. -/
def DrawOp.InBounds (op : DrawOp) (x y W H iw ih : Int) : Prop :=
  0 ≤ isub op.dst.X x ∧ isub op.dst.X x + op.dst.Width ≤ W ∧
  0 ≤ isub op.dst.Y y ∧ isub op.dst.Y y + op.dst.Height ≤ H ∧
  0 ≤ op.src.X ∧ op.src.X + op.src.Width ≤ iw ∧
  0 ≤ op.src.Y ∧ op.src.Y + op.src.Height ≤ ih

instance (op : DrawOp) (x y W H iw ih : Int) : Decidable (op.InBounds x y W H iw ih) :=
  inferInstanceAs (Decidable (0 ≤ isub op.dst.X x ∧ isub op.dst.X x + op.dst.Width ≤ W ∧
    0 ≤ isub op.dst.Y y ∧ isub op.dst.Y y + op.dst.Height ≤ H ∧
    0 ≤ op.src.X ∧ op.src.X + op.src.Width ≤ iw ∧
    0 ≤ op.src.Y ∧ op.src.Y + op.src.Height ≤ ih))

/-! ## Concrete meters used to exercise the theorems -/

/-- An image name. -/
def sampleName : String := "clock.png"

/-- A loader that always yields a 100 by 50 bitmap. -/
def loader100x50 : Loader := fun _ _ _ => some ⟨100, 50⟩

/-- A meter of explicit width 200 and unset height, in mode KeepRatio, nothing loaded. -/
def meterWidth200 : MeterImage :=
  { m_X := 0, m_Y := 0, m_W := 200, m_H := 0, m_WDefined := true, m_HDefined := false,
    m_DrawMode := DRAWMODE_KEEPRATIO, m_ScaleMargins := ⟨0, 0, 0, 0⟩, m_Image := none }

/-- A 40 by 10 meter at (3, 4) showing a 40 by 10 bitmap, without margins. -/
def meterSameSize (mode : DRAWMODE) : MeterImage :=
  { m_X := 3, m_Y := 4, m_W := 40, m_H := 10, m_WDefined := true, m_HDefined := true,
    m_DrawMode := mode, m_ScaleMargins := ⟨0, 0, 0, 0⟩, m_Image := some ⟨40, 10⟩ }

/-- A meter of width 0. -/
def meterZeroWidth : MeterImage :=
  { m_X := 3, m_Y := 4, m_W := 0, m_H := 10, m_WDefined := true, m_HDefined := true,
    m_DrawMode := DRAWMODE_NONE, m_ScaleMargins := ⟨1, 1, 1, 1⟩, m_Image := some ⟨40, 10⟩ }

/-- A 50 by 100 meter at the origin, both dimensions explicit, showing a 100 by 100
bitmap. -/
def meter50x100 (mode : DRAWMODE) : MeterImage :=
  { m_X := 0, m_Y := 0, m_W := 50, m_H := 100, m_WDefined := true, m_HDefined := true,
    m_DrawMode := mode, m_ScaleMargins := ⟨0, 0, 0, 0⟩, m_Image := some ⟨100, 100⟩ }

/-- A 20 by 12 meter at (5, 6) in mode None with the margins (2, 3, 4, 1), showing a
10 by 10 bitmap. -/
def meterNineSlice : MeterImage :=
  { m_X := 5, m_Y := 6, m_W := 20, m_H := 12, m_WDefined := true, m_HDefined := true,
    m_DrawMode := DRAWMODE_NONE, m_ScaleMargins := ⟨2, 3, 4, 1⟩, m_Image := some ⟨10, 10⟩ }

/-- A tiled 40 by 10 meter at (3, 4) showing a 4 by 10 bitmap. -/
def meterTile : MeterImage :=
  { m_X := 3, m_Y := 4, m_W := 40, m_H := 10, m_WDefined := true, m_HDefined := true,
    m_DrawMode := DRAWMODE_TILE, m_ScaleMargins := ⟨0, 0, 0, 0⟩, m_Image := some ⟨4, 10⟩ }

/-- A 40 by 10 meter at (3, 4) in mode None without margins, showing a 4 by 5 bitmap. -/
def meterStretch : MeterImage :=
  { m_X := 3, m_Y := 4, m_W := 40, m_H := 10, m_WDefined := true, m_HDefined := true,
    m_DrawMode := DRAWMODE_NONE, m_ScaleMargins := ⟨0, 0, 0, 0⟩, m_Image := some ⟨4, 5⟩ }

/-- A 10 by 10 meter at the origin in mode None showing a 10 by 10 bitmap, whose left and
right margins (6 and 6) together exceed its width. -/
def meterWideMargins : MeterImage :=
  { m_X := 0, m_Y := 0, m_W := 10, m_H := 10, m_WDefined := true, m_HDefined := true,
    m_DrawMode := DRAWMODE_NONE, m_ScaleMargins := ⟨6, 2, 6, 2⟩, m_Image := some ⟨10, 10⟩ }

/-- A 10 by 10 meter at the origin in mode None with the margins (2, 2, 2, 2), showing a
10 by 10 bitmap. -/
def meterSameSizeMargins : MeterImage :=
  { m_X := 0, m_Y := 0, m_W := 10, m_H := 10, m_WDefined := true, m_HDefined := true,
    m_DrawMode := DRAWMODE_NONE, m_ScaleMargins := ⟨2, 2, 2, 2⟩, m_Image := some ⟨10, 10⟩ }

/-- A substitution that replaces the template `%1.png` by the value of the first measure
followed by `.png`, and leaves every other string alone. -/
def replaceFirst : Replacer := fun measures str =>
  match measures with
  | first :: _ => if str = "%1.png" then (first.value ++ ".png", true) else (str, false)
  | [] => (str, false)

/-- A meter bound to one measure of value `sunny`, with the template `%1.png` and no
identifier resolved yet. -/
def meterBound : MeterImage :=
  { m_X := 0, m_Y := 0, m_W := 0, m_H := 0, m_WDefined := false, m_HDefined := false,
    m_DrawMode := DRAWMODE_NONE, m_ScaleMargins := ⟨0, 0, 0, 0⟩, m_Image := none,
    m_ImageName := "%1.png", m_ImageNameResult := "", m_Measures := [⟨"sunny"⟩] }

/-- A configuration with `Tile=0` and the unrecognized code `PreserveAspectRatio=-7`. -/
def parserNegativeAspect : ConfigParser :=
  { ImageName := "clock.png", Tile := 0, PreserveAspectRatio := -7, ScaleMargins := ⟨0, 0, 0, 0⟩ }

/-- A loader that always yields a bitmap of width 0 and height 50. -/
def loader0x50 : Loader := fun _ _ _ => some ⟨0, 50⟩

/-- A loader that always yields a 1 by 32768 bitmap. -/
def loader1x32768 : Loader := fun _ _ _ => some ⟨1, 32768⟩

/-- A meter of explicit width 65536 and unset height, in mode KeepRatio, nothing loaded. -/
def meterWidth65536 : MeterImage :=
  { m_X := 0, m_Y := 0, m_W := 65536, m_H := 0, m_WDefined := true, m_HDefined := false,
    m_DrawMode := DRAWMODE_KEEPRATIO, m_ScaleMargins := ⟨0, 0, 0, 0⟩, m_Image := none }

/-- A 10 by 10 meter in mode None without margins, showing a loaded bitmap of size (0, 0). -/
def meterEmptyBitmap : MeterImage :=
  { m_X := 0, m_Y := 0, m_W := 10, m_H := 10, m_WDefined := true, m_HDefined := true,
    m_DrawMode := DRAWMODE_NONE, m_ScaleMargins := ⟨0, 0, 0, 0⟩, m_Image := some ⟨0, 0⟩ }

/-- A 2948 by 2947 meter at the origin, both dimensions explicit, showing a 2949 by 2948
bitmap. -/
def meterNearSquare (mode : DRAWMODE) : MeterImage :=
  { m_X := 0, m_Y := 0, m_W := 2948, m_H := 2947, m_WDefined := true, m_HDefined := true,
    m_DrawMode := mode, m_ScaleMargins := ⟨0, 0, 0, 0⟩, m_Image := some ⟨2949, 2948⟩ }

/-- A 344 by 132 meter at the origin in mode KeepRatioAndCrop, both dimensions explicit,
showing a 981 by 165 bitmap. -/
def meterBanner : MeterImage :=
  { m_X := 0, m_Y := 0, m_W := 344, m_H := 132, m_WDefined := true, m_HDefined := true,
    m_DrawMode := DRAWMODE_KEEPRATIOANDCROP, m_ScaleMargins := ⟨0, 0, 0, 0⟩,
    m_Image := some ⟨981, 165⟩ }

/-- A 98105665 by 83389813 meter at the origin in mode KeepRatio, both dimensions explicit,
showing a 20 by 17 bitmap. -/
def meterLarge : MeterImage :=
  { m_X := 0, m_Y := 0, m_W := 98105665, m_H := 83389813, m_WDefined := true,
    m_HDefined := true, m_DrawMode := DRAWMODE_KEEPRATIO, m_ScaleMargins := ⟨0, 0, 0, 0⟩,
    m_Image := some ⟨20, 17⟩ }

/-- A 4 by 4 meter at the origin in mode None showing a 4 by 4 bitmap, whose left and
right margins (2 and 2) leave no width to the centre. -/
def meterThinCentre : MeterImage :=
  { m_X := 0, m_Y := 0, m_W := 4, m_H := 4, m_WDefined := true, m_HDefined := true,
    m_DrawMode := DRAWMODE_NONE, m_ScaleMargins := ⟨2, 0, 2, 0⟩, m_Image := some ⟨4, 4⟩ }

/-! ## Auxiliary lemmas -/

/-- The test of the fast path fails when the meter's size differs from the natural size
or some margin is not zero. -/
theorem fast_path_test_false (m : MeterImage) (iw ih : Int)
    (hOff : ¬ (m.m_W = iw ∧ m.m_H = ih ∧ m.m_ScaleMargins = ⟨0, 0, 0, 0⟩)) :
    (m.m_W == iw && m.m_H == ih &&
      m.m_ScaleMargins.left == 0 && m.m_ScaleMargins.top == 0 &&
      m.m_ScaleMargins.right == 0 && m.m_ScaleMargins.bottom == 0) = false := by
  rw [Bool.eq_false_iff]
  intro h
  simp only [Bool.and_eq_true, beq_iff_eq] at h
  obtain ⟨⟨⟨⟨⟨h1, h2⟩, h3⟩, h4⟩, h5⟩, h6⟩ := h
  apply hOff
  refine ⟨h1, h2, ?_⟩
  cases hm : m.m_ScaleMargins
  simp_all

/-- Storing a value of the type `int` in an `int` does not change it. -/
theorem wrap32_of_isInt32 {n : Int} (h : IsInt32 n) : wrap32 n = n := by
  unfold IsInt32 at h
  unfold wrap32
  omega

/-- A wrapped value is a value of the type `int`. -/
theorem isInt32_wrap32 (n : Int) : IsInt32 (wrap32 n) := by
  unfold IsInt32 wrap32
  omega

/-- Wrapping a non-negative integer never increases it. -/
theorem wrap32_le_self {n : Int} (h : 0 ≤ n) : wrap32 n ≤ n := by
  unfold wrap32
  omega

/-- Truncated division by a positive divisor is bounded by the floor quotient of any
larger non-negative numerator. -/
theorem tdiv_le_ediv_of_le {p n d : Int} (hd : 0 < d) (hn : 0 ≤ n) (hpn : p ≤ n) :
    Int.tdiv p d ≤ n / d := by
  rcases le_or_lt 0 p with hp | hp
  · rw [Int.tdiv_eq_ediv hp hd.le]
    exact Int.ediv_le_ediv hd hpn
  · have h1 : 0 ≤ Int.tdiv (-p) d := Int.tdiv_nonneg (by omega) hd.le
    rw [Int.neg_tdiv] at h1
    have h2 : 0 ≤ n / d := Int.ediv_nonneg hn hd.le
    omega

/-- Truncated division of an `int` by a positive divisor yields an `int`. -/
theorem isInt32_tdiv {p d : Int} (hp : IsInt32 p) (hd : 0 < d) : IsInt32 (Int.tdiv p d) := by
  unfold IsInt32 at *
  rcases le_or_lt 0 p with h | h
  · rw [Int.tdiv_eq_ediv h hd.le]
    have h1 : 0 ≤ p / d := Int.ediv_nonneg h hd.le
    have h2 : p / d ≤ p := Int.ediv_le_self d h
    omega
  · have h0 : 0 ≤ -p := by omega
    have h1 : 0 ≤ (-p) / d := Int.ediv_nonneg h0 hd.le
    have h2 : (-p) / d ≤ -p := Int.ediv_le_self d h0
    have h3 : Int.tdiv (-p) d = (-p) / d := Int.tdiv_eq_ediv h0 hd.le
    rw [Int.neg_tdiv] at h3
    omega

/-- The `int` expression `a * b / d` on non-negative operands stays at or below `n` when
`a * b < n * d`, even when the product overflows. -/
theorem idiv_imul_le {a b d n : Int} (ha : 0 ≤ a) (hb : 0 ≤ b) (hd : 0 < d)
    (h : a * b < n * d) : idiv (imul a b) d ≤ n := by
  have hab : 0 ≤ a * b := mul_nonneg ha hb
  unfold idiv imul
  rw [wrap32_of_isInt32 (isInt32_tdiv (isInt32_wrap32 _) hd)]
  have h1 : Int.tdiv (wrap32 (a * b)) d ≤ (a * b) / d :=
    tdiv_le_ediv_of_le hd hab (wrap32_le_self hab)
  have h2 : (a * b) / d < n := Int.ediv_lt_of_lt_mul hd h
  omega

/-- When the product fits in an `int`, the `int` expression `a * b / d` with a positive
divisor is the truncated quotient of the exact product. -/
theorem idiv_imul_eq_tdiv {a b d : Int} (hab : IsInt32 (a * b)) (hd : 0 < d) :
    idiv (imul a b) d = Int.tdiv (a * b) d := by
  unfold idiv imul
  rw [wrap32_of_isInt32 hab, wrap32_of_isInt32 (isInt32_tdiv hab hd)]

/-- The halving count brackets `n` between two consecutive powers of two. -/
theorem log2Fuel_spec : ∀ (fuel n : Nat), 0 < n → n ≤ fuel →
    2 ^ log2Fuel fuel n ≤ n ∧ n < 2 ^ (log2Fuel fuel n + 1)
  | 0, n, h0, h => by omega
  | fuel + 1, n, h0, h => by
    unfold log2Fuel
    split_ifs with h2
    · simp; omega
    · have ih := log2Fuel_spec fuel (n / 2) (by omega) (by omega)
      obtain ⟨h3, h4⟩ := ih
      rw [pow_succ] at h4 ⊢
      rw [pow_succ]
      constructor <;> omega

/-- The leading bit brackets a positive `n`: `2 ^ ilog2 n ≤ n < 2 ^ (ilog2 n + 1)`. -/
theorem ilog2_spec (n : Nat) (hn : 0 < n) : 2 ^ ilog2 n ≤ n ∧ n < 2 ^ (ilog2 n + 1) :=
  log2Fuel_spec n n hn le_rfl

/-- The scaled quotient has the value of `p / q` and an integer part of exactly 24 bits. -/
theorem scale24_spec (p q : Nat) (hp : 0 < p) (hq : 0 < q) :
    0 < (scale24 p q).2.1 ∧ 2 ^ 23 * (scale24 p q).2.1 ≤ (scale24 p q).1 ∧
      (scale24 p q).1 < 2 ^ 24 * (scale24 p q).2.1 ∧
      ((scale24 p q).1 : ℚ) / ((scale24 p q).2.1 : ℚ) * (2 : ℚ) ^ (scale24 p q).2.2 =
        (p : ℚ) / (q : ℚ) := by
  obtain ⟨hp1, hp2⟩ := ilog2_spec p hp
  obtain ⟨hq1, hq2⟩ := ilog2_spec q hq
  set a := (ilog2 q + 24) - ilog2 p with ha
  set b := ilog2 p - (ilog2 q + 24) with hb
  have hab : ilog2 p + a = ilog2 q + b + 24 := by omega
  have hN1 : 2 ^ (ilog2 q + b) * 2 ^ 24 ≤ p * 2 ^ a := by
    rw [← pow_add, ← hab, pow_add]
    exact Nat.mul_le_mul_right _ hp1
  have hN2 : p * 2 ^ a < 2 ^ (ilog2 q + b) * 2 ^ 25 := by
    have : ilog2 q + b + 25 = (ilog2 p + 1) + a := by omega
    rw [← pow_add, this, pow_add]
    exact Nat.mul_lt_mul_of_pos_right hp2 (by positivity)
  have hD1 : 2 ^ (ilog2 q + b) ≤ q * 2 ^ b := by
    rw [pow_add]
    exact Nat.mul_le_mul_right _ hq1
  have hD2 : q * 2 ^ b < 2 ^ (ilog2 q + b) * 2 := by
    have : ilog2 q + b + 1 = (ilog2 q + 1) + b := by omega
    rw [← pow_succ, this, pow_add]
    exact Nat.mul_lt_mul_of_pos_right hq2 (by positivity)
  have hD0 : 0 < q * 2 ^ b := by positivity
  have hpq : (p : ℚ) * 2 ^ a / (q * 2 ^ b) * (2 : ℚ) ^ ((b : ℤ) - a) = p / q := by
    have hq' : (q : ℚ) ≠ 0 := by positivity
    rw [zpow_sub₀ (by norm_num : (2 : ℚ) ≠ 0), zpow_natCast, zpow_natCast]
    field_simp
    ring
  unfold scale24
  simp only [← ha, ← hb]
  generalize 2 ^ (ilog2 q + b) = t at hN1 hN2 hD1 hD2
  split_ifs with h
  · rw [Nat.div_lt_iff_lt_mul hD0] at h
    refine ⟨hD0, ?_, ?_, ?_⟩
    · show 2 ^ 23 * (q * 2 ^ b) ≤ p * 2 ^ a
      omega
    · show p * 2 ^ a < 2 ^ 24 * (q * 2 ^ b)
      omega
    · show ((p * 2 ^ a : ℕ) : ℚ) / ((q * 2 ^ b : ℕ) : ℚ) * (2 : ℚ) ^ ((b : ℤ) - a) = p / q
      push_cast
      exact hpq
  · rw [Nat.div_lt_iff_lt_mul hD0, not_lt] at h
    refine ⟨by positivity, ?_, ?_, ?_⟩
    · show 2 ^ 23 * (2 * (q * 2 ^ b)) ≤ p * 2 ^ a
      omega
    · show p * 2 ^ a < 2 ^ 24 * (2 * (q * 2 ^ b))
      omega
    · show ((p * 2 ^ a : ℕ) : ℚ) / ((2 * (q * 2 ^ b) : ℕ) : ℚ) * (2 : ℚ) ^ ((b : ℤ) - a + 1) =
        p / q
      push_cast
      rw [zpow_add₀ (by norm_num : (2 : ℚ) ≠ 0), ← hpq]
      have hq' : (q : ℚ) ≠ 0 := by positivity
      field_simp
      ring

/-- Rounding to nearest picks, among the two integers around `N / D`, one that is at least
as near as any number outside the open interval between them. -/
theorem roundNearestEven_spec (N D : Nat) (hD : 0 < D) :
    (roundNearestEven N D = N / D ∨ roundNearestEven N D = N / D + 1) ∧
      ∀ g : ℚ, (g ≤ ((N / D : ℕ) : ℚ) ∨ ((N / D : ℕ) : ℚ) + 1 ≤ g) →
        |((roundNearestEven N D : ℕ) : ℚ) - (N : ℚ) / (D : ℚ)| ≤ |g - (N : ℚ) / (D : ℚ)| := by
  have hDq : (0 : ℚ) < D := by exact_mod_cast hD
  have hdm : (N : ℚ) = D * ((N / D : ℕ) : ℚ) + ((N % D : ℕ) : ℚ) := by
    exact_mod_cast (Nat.div_add_mod N D).symm
  have hR : ((N % D : ℕ) : ℚ) < D := by exact_mod_cast Nat.mod_lt N hD
  have hR0 : (0 : ℚ) ≤ ((N % D : ℕ) : ℚ) := by positivity
  have hy : (N : ℚ) / D = ((N / D : ℕ) : ℚ) + ((N % D : ℕ) : ℚ) / D := by
    rw [hdm]
    field_simp
    ring
  have hf0 : (0 : ℚ) ≤ ((N % D : ℕ) : ℚ) / D := by positivity
  have hf1 : ((N % D : ℕ) : ℚ) / D < 1 := by rwa [div_lt_one hDq]
  have key : ∀ g : ℚ, (g ≤ ((N / D : ℕ) : ℚ) ∨ ((N / D : ℕ) : ℚ) + 1 ≤ g) →
      ((N % D : ℕ) : ℚ) / D ≤ |g - (N : ℚ) / D| ∨
        1 - ((N % D : ℕ) : ℚ) / D ≤ |g - (N : ℚ) / D| := by
    intro g hg
    rw [hy]
    rcases hg with hg | hg
    · left
      rw [abs_of_nonpos (by linarith)]
      linarith
    · right
      rw [abs_of_nonneg (by linarith)]
      linarith
  unfold roundNearestEven
  split_ifs with h
  · refine ⟨Or.inr rfl, ?_⟩
    have h2 : D ≤ 2 * (N % D) := by omega
    have h2q : (D : ℚ) ≤ 2 * ((N % D : ℕ) : ℚ) := by exact_mod_cast h2
    have hhalf : (1 : ℚ) ≤ 2 * (((N % D : ℕ) : ℚ) / D) := by
      rw [← mul_div_assoc, le_div_iff₀ hDq]
      linarith
    intro g hg
    have hk := key g hg
    have : |(((N / D + 1 : ℕ) : ℕ) : ℚ) - (N : ℚ) / D| = 1 - ((N % D : ℕ) : ℚ) / D := by
      rw [hy, abs_of_nonneg (by push_cast; linarith)]
      push_cast
      ring
    rw [this]
    rcases hk with hk | hk <;> linarith
  · refine ⟨Or.inl rfl, ?_⟩
    have h2 : 2 * (N % D) ≤ D := by omega
    have h2q : 2 * ((N % D : ℕ) : ℚ) ≤ (D : ℚ) := by exact_mod_cast h2
    intro g hg
    have hk := key g hg
    have hhalf : 2 * (((N % D : ℕ) : ℚ) / D) ≤ 1 := by
      rw [← mul_div_assoc, div_le_iff₀ hDq]
      linarith
    have : |((N / D : ℕ) : ℚ) - (N : ℚ) / D| = ((N % D : ℕ) : ℚ) / D := by
      rw [hy, abs_of_nonpos (by linarith)]
      ring
    rw [this]
    rcases hk with hk | hk <;> linarith

/-- No number with a significand of at most 24 bits lies strictly between two consecutive
integers from `2 ^ 23` on. -/
theorem isFloat24_not_between (g : ℚ) (hg : IsFloat24 g) (M : Nat) (hM : 2 ^ 23 ≤ M) :
    g ≤ (M : ℚ) ∨ (M : ℚ) + 1 ≤ g := by
  obtain ⟨m, e, hm, rfl⟩ := hg
  rcases le_or_lt 0 e with he | he
  · obtain ⟨k, rfl⟩ := Int.eq_ofNat_of_zero_le he
    rw [zpow_natCast]
    rcases Nat.lt_or_ge M (m * 2 ^ k) with h | h
    · right
      have : M + 1 ≤ m * 2 ^ k := h
      exact_mod_cast this
    · left
      exact_mod_cast h
  · left
    have h1 : (2 : ℚ) ^ e ≤ (2 : ℚ) ^ (-1 : ℤ) :=
      zpow_le_zpow_right₀ (by norm_num) (by omega)
    have h2 : (m : ℚ) ≤ 2 ^ 24 := by exact_mod_cast hm
    have h3 : (2 : ℚ) ^ 23 ≤ M := by exact_mod_cast hM
    have h4 : (0 : ℚ) < (2 : ℚ) ^ e := by positivity
    calc (m : ℚ) * (2 : ℚ) ^ e ≤ 2 ^ 24 * (2 : ℚ) ^ e :=
          mul_le_mul_of_nonneg_right h2 h4.le
      _ ≤ 2 ^ 24 * (2 : ℚ) ^ (-1 : ℤ) := mul_le_mul_of_nonneg_left h1 (by norm_num)
      _ = 2 ^ 23 := by norm_num
      _ ≤ M := h3

/-- Scaling by a power of two keeps a significand of at most 24 bits. -/
theorem IsFloat24.scale {f : ℚ} (hf : IsFloat24 f) (k : ℤ) : IsFloat24 (f * (2 : ℚ) ^ k) := by
  obtain ⟨m, e, hm, rfl⟩ := hf
  exact ⟨m, e + k, hm, by rw [zpow_add₀ (by norm_num : (2 : ℚ) ≠ 0), mul_assoc]⟩

/-- An integer of magnitude at most `2 ^ 24` has a significand of at most 24 bits. -/
theorem isFloat24_natCast (n : Nat) (hn : n ≤ 2 ^ 24) : IsFloat24 (n : ℚ) :=
  ⟨n, 0, hn, by simp⟩

/-- The quotient in lowest terms is determined by the value of the quotient. -/
theorem reduced_eq_of_cross (P1 Q1 P2 Q2 : Nat) (hP1 : 0 < P1)
    (hP2 : 0 < P2) (h : P1 * Q2 = P2 * Q1) :
    P1 / Nat.gcd P1 Q1 = P2 / Nat.gcd P2 Q2 ∧ Q1 / Nat.gcd P1 Q1 = Q2 / Nat.gcd P2 Q2 := by
  have hg1 : 0 < Nat.gcd P1 Q1 := Nat.gcd_pos_of_pos_left _ hP1
  have hg2 : 0 < Nat.gcd P2 Q2 := Nat.gcd_pos_of_pos_left _ hP2
  obtain ⟨p1, q1, hc1, hp1, hq1⟩ := Nat.exists_coprime P1 Q1
  obtain ⟨p2, q2, hc2, hp2, hq2⟩ := Nat.exists_coprime P2 Q2
  have e1 : P1 / Nat.gcd P1 Q1 = p1 :=
    Nat.div_eq_of_eq_mul_left hg1 hp1
  have e2 : Q1 / Nat.gcd P1 Q1 = q1 :=
    Nat.div_eq_of_eq_mul_left hg1 hq1
  have e3 : P2 / Nat.gcd P2 Q2 = p2 :=
    Nat.div_eq_of_eq_mul_left hg2 hp2
  have e4 : Q2 / Nat.gcd P2 Q2 = q2 :=
    Nat.div_eq_of_eq_mul_left hg2 hq2
  rw [e1, e2, e3, e4]
  have hp1pos : 0 < p1 := by
    rcases Nat.eq_zero_or_pos p1 with h0 | h0
    · rw [h0, zero_mul] at hp1; omega
    · exact h0
  have hcross : p1 * q2 = p2 * q1 := by
    have h' : (p1 * q2) * (Nat.gcd P1 Q1 * Nat.gcd P2 Q2) =
        (p2 * q1) * (Nat.gcd P1 Q1 * Nat.gcd P2 Q2) := by
      calc (p1 * q2) * (Nat.gcd P1 Q1 * Nat.gcd P2 Q2)
          = (p1 * Nat.gcd P1 Q1) * (q2 * Nat.gcd P2 Q2) := by ring
        _ = P1 * Q2 := by rw [← hp1, ← hq2]
        _ = P2 * Q1 := h
        _ = (p2 * Nat.gcd P2 Q2) * (q1 * Nat.gcd P1 Q1) := by rw [← hp2, ← hq1]
        _ = (p2 * q1) * (Nat.gcd P1 Q1 * Nat.gcd P2 Q2) := by ring
    exact Nat.eq_of_mul_eq_mul_right (Nat.mul_pos hg1 hg2) h'
  have d1 : p1 ∣ p2 := by
    have : p1 ∣ p2 * q1 := ⟨q2, hcross.symm⟩
    exact hc1.dvd_of_dvd_mul_right this
  have d2 : p2 ∣ p1 := by
    have : p2 ∣ p1 * q2 := ⟨q1, hcross⟩
    exact hc2.dvd_of_dvd_mul_right this
  have hp : p1 = p2 := Nat.dvd_antisymm d1 d2
  refine ⟨hp, ?_⟩
  rw [← hp] at hcross
  exact (Nat.eq_of_mul_eq_mul_left hp1pos hcross).symm

/-- The rounded quotient depends only on the value of the quotient. -/
theorem round24_congr (P1 Q1 P2 Q2 : Nat) (hP1 : 0 < P1) (hQ1 : 0 < Q1)
    (hP2 : 0 < P2) (hQ2 : 0 < Q2) (h : P1 * Q2 = P2 * Q1) :
    round24 P1 Q1 = round24 P2 Q2 := by
  obtain ⟨e1, e2⟩ := reduced_eq_of_cross P1 Q1 P2 Q2 hP1 hP2 h
  unfold round24
  rw [if_neg (by omega), if_neg (by omega), e1, e2]

/-- The rounded quotient of two positive integers: its significand lies between `2 ^ 23`
and `2 ^ 24`, and its value is a nearest number with a significand of at most 24 bits. -/
theorem round24_spec (P Q : Nat) (hP : 0 < P) (hQ : 0 < Q) :
    2 ^ 23 ≤ (round24 P Q).1 ∧ (round24 P Q).1 ≤ 2 ^ 24 ∧
      Nearest24 (val24 (round24 P Q)) ((P : ℚ) / (Q : ℚ)) := by
  have hg : 0 < Nat.gcd P Q := Nat.gcd_pos_of_pos_left _ hP
  have hp : 0 < P / Nat.gcd P Q :=
    Nat.div_pos (Nat.le_of_dvd hP (Nat.gcd_dvd_left P Q)) hg
  have hq : 0 < Q / Nat.gcd P Q :=
    Nat.div_pos (Nat.le_of_dvd hQ (Nat.gcd_dvd_right P Q)) hg
  have hpq : ((P / Nat.gcd P Q : ℕ) : ℚ) / ((Q / Nat.gcd P Q : ℕ) : ℚ) = (P : ℚ) / (Q : ℚ) := by
    have hgq : (Nat.gcd P Q : ℚ) ≠ 0 := by exact_mod_cast hg.ne'
    rw [Nat.cast_div (Nat.gcd_dvd_left P Q) hgq, Nat.cast_div (Nat.gcd_dvd_right P Q) hgq]
    have hQq : (Q : ℚ) ≠ 0 := by exact_mod_cast hQ.ne'
    field_simp
  obtain ⟨hD, hlo, hhi, hval⟩ := scale24_spec _ _ hp hq
  rw [hpq] at hval
  have hround : round24 P Q =
      (roundNearestEven (scale24 (P / Nat.gcd P Q) (Q / Nat.gcd P Q)).1
        (scale24 (P / Nat.gcd P Q) (Q / Nat.gcd P Q)).2.1,
        (scale24 (P / Nat.gcd P Q) (Q / Nat.gcd P Q)).2.2) := by
    unfold round24
    rw [if_neg (by omega)]
  rw [hround]
  generalize (scale24 (P / Nat.gcd P Q) (Q / Nat.gcd P Q)).1 = N at *
  generalize (scale24 (P / Nat.gcd P Q) (Q / Nat.gcd P Q)).2.1 = D at *
  generalize (scale24 (P / Nat.gcd P Q) (Q / Nat.gcd P Q)).2.2 = e at *
  have hM1 : 2 ^ 23 ≤ N / D := (Nat.le_div_iff_mul_le hD).mpr hlo
  have hM2 : N / D < 2 ^ 24 := (Nat.div_lt_iff_lt_mul hD).mpr hhi
  obtain ⟨hcases, hnear⟩ := roundNearestEven_spec N D hD
  have hb1 : 2 ^ 23 ≤ roundNearestEven N D := by rcases hcases with h | h <;> omega
  have hb2 : roundNearestEven N D ≤ 2 ^ 24 := by rcases hcases with h | h <;> omega
  refine ⟨hb1, hb2, ⟨roundNearestEven N D, e, hb2, rfl⟩, ?_⟩
  intro f hf
  have h2e : (0 : ℚ) < (2 : ℚ) ^ e := by positivity
  have hfs := isFloat24_not_between _ (hf.scale (-e)) (N / D) hM1
  have h1 := hnear _ hfs
  have e1 : val24 (roundNearestEven N D, e) - (P : ℚ) / Q =
      (((roundNearestEven N D : ℕ) : ℚ) - (N : ℚ) / D) * (2 : ℚ) ^ e := by
    rw [← hval]
    simp only [val24]
    ring
  have e2 : f - (P : ℚ) / Q = (f * (2 : ℚ) ^ (-e) - (N : ℚ) / D) * (2 : ℚ) ^ e := by
    rw [← hval, sub_mul, mul_assoc, ← zpow_add₀ (by norm_num : (2 : ℚ) ≠ 0)]
    simp
  rw [e1, e2, abs_mul, abs_mul, abs_of_pos h2e]
  exact mul_le_mul_of_nonneg_right h1 h2e.le

/-- A nearest number is at most any representable number above the exact value. -/
theorem Nearest24.le_of_le {v x f : ℚ} (hv : Nearest24 v x) (hf : IsFloat24 f) (hxf : x ≤ f) :
    v ≤ f := by
  by_contra hlt
  have h := hv.2 f hf
  rw [abs_of_nonneg (by linarith : 0 ≤ f - x), abs_of_nonneg (by linarith : 0 ≤ v - x)] at h
  linarith

/-- A nearest number is at least any representable number below the exact value. -/
theorem Nearest24.ge_of_ge {v x f : ℚ} (hv : Nearest24 v x) (hf : IsFloat24 f) (hfx : f ≤ x) :
    f ≤ v := by
  by_contra hlt
  have h := hv.2 f hf
  rw [abs_of_nonpos (by linarith : f - x ≤ 0), abs_of_nonpos (by linarith : v - x ≤ 0)] at h
  linarith

/-- A representable number is rounded to itself. -/
theorem Nearest24.eq_self {v x : ℚ} (hv : Nearest24 v x) (hx : IsFloat24 x) : v = x := by
  have h := hv.2 x hx
  rw [sub_self, abs_zero] at h
  exact sub_eq_zero.mp (abs_eq_zero.mp (le_antisymm h (abs_nonneg _)))

/-- Rounding to nearest never reverses a strict order. -/
theorem Nearest24.mono_of_lt {v1 x1 v2 x2 : ℚ} (h1 : Nearest24 v1 x1) (h2 : Nearest24 v2 x2)
    (hx : x1 < x2) : v1 ≤ v2 := by
  by_contra hlt
  have a := h1.2 v2 h2.1
  have b := h2.2 v1 h1.1
  rcases abs_cases (v1 - x1) with ⟨c1, _⟩ | ⟨c1, _⟩ <;>
    rcases abs_cases (v2 - x1) with ⟨c2, _⟩ | ⟨c2, _⟩ <;>
    rcases abs_cases (v2 - x2) with ⟨c3, _⟩ | ⟨c3, _⟩ <;>
    rcases abs_cases (v1 - x2) with ⟨c4, _⟩ | ⟨c4, _⟩ <;>
    rw [c1, c2] at a <;> rw [c3, c4] at b <;> linarith

/-- The absolute value of a positive integer is the integer. -/
theorem natAbs_cast_of_pos (n : ℤ) (h : 0 < n) : ((n.natAbs : ℕ) : ℚ) = (n : ℚ) := by
  have : ((n.natAbs : ℕ) : ℤ) = n := Int.natAbs_of_nonneg h.le
  rw [← Int.cast_natCast, this]

/-- A power of two with a non-negative integer exponent. -/
theorem two_pow_toNat (k : ℤ) (hk : 0 ≤ k) : ((2 ^ k.toNat : ℕ) : ℚ) = (2 : ℚ) ^ k := by
  obtain ⟨n, rfl⟩ := Int.eq_ofNat_of_zero_le hk
  simp

/-- A power of two as the quotient of its positive and negative parts. -/
theorem two_zpow_split (k : ℤ) :
    ((2 ^ k.toNat : ℕ) : ℚ) / ((2 ^ (-k).toNat : ℕ) : ℚ) = (2 : ℚ) ^ k := by
  rcases le_or_lt 0 k with h | h
  · obtain ⟨n, rfl⟩ := Int.eq_ofNat_of_zero_le h
    have : (-(n : ℤ)).toNat = 0 := by omega
    simp [this]
  · obtain ⟨n, hn⟩ := Int.eq_ofNat_of_zero_le (by omega : 0 ≤ -k)
    have h1 : k.toNat = 0 := by omega
    have h2 : k = -(n : ℤ) := by omega
    rw [h1, hn, h2]
    simp

/-- A rounded positive number has a positive significand. -/
theorem RoundsTo.m_pos {a : Real32} {x : ℚ} (h : RoundsTo a x) : 0 < a.m := by
  obtain ⟨P, Q, hP, hQ, -, rfl⟩ := h
  have := (round24_spec P Q hP hQ).1
  simp only [Real32.round]
  have h0 : 0 < (round24 P Q).1 := by omega
  simpa using h0

/-- A rounded positive number is a nearest representable number. -/
theorem RoundsTo.nearest {a : Real32} {x : ℚ} (h : RoundsTo a x) : Nearest24 a.toRat x := by
  obtain ⟨P, Q, hP, hQ, rfl, rfl⟩ := h
  have := (round24_spec P Q hP hQ).2.2
  simpa [Real32.round, Real32.toRat, val24] using this

/-- The rounding of an exact number is unique. -/
theorem RoundsTo.unique {a b : Real32} {x : ℚ} (ha : RoundsTo a x) (hb : RoundsTo b x) :
    a = b := by
  obtain ⟨P1, Q1, hP1, hQ1, h1, rfl⟩ := ha
  obtain ⟨P2, Q2, hP2, hQ2, h2, rfl⟩ := hb
  have hQ1' : (Q1 : ℚ) ≠ 0 := by exact_mod_cast hQ1.ne'
  have hQ2' : (Q2 : ℚ) ≠ 0 := by exact_mod_cast hQ2.ne'
  have hc : P1 * Q2 = P2 * Q1 := by
    have := h1.trans h2.symm
    rw [div_eq_div_iff hQ1' hQ2'] at this
    exact_mod_cast this
  unfold Real32.round
  rw [round24_congr P1 Q1 P2 Q2 hP1 hQ1 hP2 hQ2 hc]

/-- A rounded positive number is positive. -/
theorem RoundsTo.toRat_pos {a : Real32} {x : ℚ} (h : RoundsTo a x) : 0 < a.toRat := by
  have := h.m_pos
  have h1 : (0 : ℚ) < a.m := by exact_mod_cast this
  unfold Real32.toRat
  positivity

/-- The conversion of a positive `int` is its rounding. -/
theorem Real32.ofInt_roundsTo (n : Int) (hn : 0 < n) : RoundsTo (Real32.ofInt n) (n : ℚ) := by
  refine ⟨n.natAbs, 1, by omega, one_pos, ?_, ?_⟩
  · simp [natAbs_cast_of_pos n hn]
  · unfold Real32.ofInt
    have : decide (n < 0) = false := by simpa using hn.le
    rw [this]

/-- The quotient of two positive `REAL` values is the rounding of the exact quotient. -/
theorem Real32.div_roundsTo (a b : Real32) (ha : 0 < a.m) (hb : 0 < b.m) :
    RoundsTo (Real32.div a b) (a.toRat / b.toRat) := by
  refine ⟨a.m.natAbs * 2 ^ (a.e - b.e).toNat, b.m.natAbs * 2 ^ (b.e - a.e).toNat,
    by positivity, by positivity, ?_, ?_⟩
  · have h1 := natAbs_cast_of_pos a.m ha
    have h2 := natAbs_cast_of_pos b.m hb
    have hb' : (b.m : ℚ) ≠ 0 := by exact_mod_cast hb.ne'
    have h3 := two_zpow_split (a.e - b.e)
    rw [neg_sub] at h3
    have h4 : (2 : ℚ) ^ (a.e - b.e) = (2 : ℚ) ^ a.e / (2 : ℚ) ^ b.e :=
      zpow_sub₀ (by norm_num) _ _
    unfold Real32.toRat
    rw [Nat.cast_mul, Nat.cast_mul, h1, h2, mul_div_mul_comm, h3, h4, mul_div_mul_comm]
  · unfold Real32.div
    have h1 : decide (a.m < 0) = false := by simpa using ha.le
    have h2 : decide (b.m < 0) = false := by simpa using hb.le
    rw [h1, h2]
    rfl

/-- The product of two positive `REAL` values is the rounding of the exact product. -/
theorem Real32.mul_roundsTo (a b : Real32) (ha : 0 < a.m) (hb : 0 < b.m) :
    RoundsTo (Real32.mul a b) (a.toRat * b.toRat) := by
  refine ⟨a.m.natAbs * b.m.natAbs * 2 ^ (a.e + b.e).toNat, 2 ^ (-(a.e + b.e)).toNat,
    by positivity, by positivity, ?_, ?_⟩
  · have h1 := natAbs_cast_of_pos a.m ha
    have h2 := natAbs_cast_of_pos b.m hb
    have h3 := two_zpow_split (a.e + b.e)
    have h4 : (2 : ℚ) ^ (a.e + b.e) = (2 : ℚ) ^ a.e * (2 : ℚ) ^ b.e :=
      zpow_add₀ (by norm_num) _ _
    unfold Real32.toRat
    rw [Nat.cast_mul, Nat.cast_mul, h1, h2, mul_div_assoc, h3, h4]
    ring
  · unfold Real32.mul
    have h1 : decide (a.m < 0) = false := by simpa using ha.le
    have h2 : decide (b.m < 0) = false := by simpa using hb.le
    rw [h1, h2]
    rfl

/-- The operator `<` on `REAL` is the order of the exact values. -/
theorem Real32.lt_iff (a b : Real32) : Real32.lt a b = true ↔ a.toRat < b.toRat := by
  unfold Real32.lt Real32.toRat
  rw [decide_eq_true_iff]
  have h2 : (0 : ℚ) < (2 : ℚ) ^ (min a.e b.e) := by positivity
  have ea : ((2 ^ (a.e - min a.e b.e).toNat : ℕ) : ℚ) * (2 : ℚ) ^ (min a.e b.e) =
      (2 : ℚ) ^ a.e := by
    rw [two_pow_toNat _ (by omega), ← zpow_add₀ (by norm_num : (2 : ℚ) ≠ 0)]
    simp
  have eb : ((2 ^ (b.e - min a.e b.e).toNat : ℕ) : ℚ) * (2 : ℚ) ^ (min a.e b.e) =
      (2 : ℚ) ^ b.e := by
    rw [two_pow_toNat _ (by omega), ← zpow_add₀ (by norm_num : (2 : ℚ) ≠ 0)]
    simp
  rw [← ea, ← eb, ← mul_assoc, ← mul_assoc, mul_lt_mul_right h2]
  constructor
  · intro h
    exact_mod_cast h
  · intro h
    exact_mod_cast h

/-- The conversion `(int)` of a non-negative value that is at most the `int` `n` lies in
`[0, n]`. -/
theorem Real32.toInt_bounds (a : Real32) (n : Int) (ha : 0 ≤ a.m) (hn : n ≤ 2147483647)
    (h : a.toRat ≤ (n : ℚ)) : 0 ≤ Real32.toInt a ∧ Real32.toInt a ≤ n := by
  have key : ∀ t : Int, 0 ≤ t → t ≤ n →
      0 ≤ (if -2147483648 ≤ t ∧ t ≤ 2147483647 then t else -2147483648) ∧
        (if -2147483648 ≤ t ∧ t ≤ 2147483647 then t else -2147483648) ≤ n := by
    intro t h0 h1
    rw [if_pos ⟨by omega, by omega⟩]
    exact ⟨h0, h1⟩
  unfold Real32.toRat at h
  unfold Real32.toInt
  by_cases he : 0 ≤ a.e
  · rw [if_pos he]
    apply key
    · positivity
    · rw [← two_pow_toNat _ he] at h
      exact_mod_cast h
  · rw [if_neg he]
    apply key
    · exact Int.tdiv_nonneg ha (by positivity)
    · rw [Int.tdiv_eq_ediv ha (by positivity)]
      apply Int.ediv_le_of_le_mul (by positivity)
      have h3 : (2 : ℚ) ^ a.e * ((2 ^ (-a.e).toNat : ℕ) : ℚ) = 1 := by
        rw [two_pow_toNat _ (by omega), ← zpow_add₀ (by norm_num : (2 : ℚ) ≠ 0)]
        simp
      have h4 : (0 : ℚ) < ((2 ^ (-a.e).toNat : ℕ) : ℚ) := by positivity
      have h5 : (a.m : ℚ) ≤ n * ((2 ^ (-a.e).toNat : ℕ) : ℚ) := by
        calc (a.m : ℚ) = (a.m : ℚ) * (2 : ℚ) ^ a.e * ((2 ^ (-a.e).toNat : ℕ) : ℚ) := by
              rw [mul_assoc, h3, mul_one]
          _ ≤ n * ((2 ^ (-a.e).toNat : ℕ) : ℚ) := mul_le_mul_of_nonneg_right h h4.le
      exact_mod_cast h5

/-- An `int` between 1 and `2 ^ 24` has a significand of at most 24 bits. -/
theorem isFloat24_intCast (n : Int) (h0 : 0 < n) (hn : n ≤ 16777216) : IsFloat24 (n : ℚ) := by
  have := isFloat24_natCast n.natAbs (by omega)
  rwa [natAbs_cast_of_pos n h0] at this

/-- An `int` between 1 and `2 ^ 24` is converted to `REAL` without rounding. -/
theorem Real32.toRat_ofInt (n : Int) (h0 : 0 < n) (hn : n ≤ 16777216) :
    (Real32.ofInt n).toRat = (n : ℚ) :=
  (Real32.ofInt_roundsTo n h0).nearest.eq_self (isFloat24_intCast n h0 hn)

/-- The quotient of two `int` values between 1 and `2 ^ 24` is the rounding of the exact quotient. -/
theorem Real32.quot_roundsTo (a b : Int) (ha0 : 0 < a) (ha : a ≤ 16777216)
    (hb0 : 0 < b) (hb : b ≤ 16777216) :
    RoundsTo (Real32.quot a b) ((a : ℚ) / (b : ℚ)) := by
  have h := Real32.div_roundsTo (Real32.ofInt a) (Real32.ofInt b)
    (Real32.ofInt_roundsTo a ha0).m_pos (Real32.ofInt_roundsTo b hb0).m_pos
  rwa [Real32.toRat_ofInt a ha0 ha, Real32.toRat_ofInt b hb0 hb] at h

/-- For `int` values between 1 and `2 ^ 24`, a strict order between two quotients computed
in `REAL` is the strict order of the exact quotients. -/
theorem Real32.quot_lt (a b c d : Int) (ha0 : 0 < a) (ha : a ≤ 16777216)
    (hb0 : 0 < b) (hb : b ≤ 16777216) (hc0 : 0 < c) (hc : c ≤ 16777216)
    (hd0 : 0 < d) (hd : d ≤ 16777216)
    (h : Real32.lt (Real32.quot a b) (Real32.quot c d) = true) : a * d < c * b := by
  rw [Real32.lt_iff] at h
  have r1 := Real32.quot_roundsTo a b ha0 ha hb0 hb
  have r2 := Real32.quot_roundsTo c d hc0 hc hd0 hd
  have hb' : (0 : ℚ) < b := by exact_mod_cast hb0
  have hd' : (0 : ℚ) < d := by exact_mod_cast hd0
  by_contra hcon
  have hle : (c : ℚ) / d ≤ (a : ℚ) / b := by
    rw [div_le_div_iff₀ hd' hb']
    have : c * b ≤ a * d := not_lt.mp hcon
    exact_mod_cast this
  rcases lt_or_eq_of_le hle with hlt | heq
  · have := r2.nearest.mono_of_lt r1.nearest hlt
    linarith
  · rw [← heq] at r1
    rw [r1.unique r2] at h
    exact lt_irrefl _ h

/-- For `int` values between 1 and `2 ^ 24`, when the ratio of the meter is below the
ratio of the image in `REAL`, the cropped width `(int)(ih * meterRatio)` lies in
`[0, iw]`. -/
theorem Real32.cropW_bounds (W H iw ih : Int) (hW0 : 0 < W) (hW : W ≤ 16777216)
    (hH0 : 0 < H) (hH : H ≤ 16777216) (hiw0 : 0 < iw) (hiw : iw ≤ 16777216)
    (hih0 : 0 < ih) (hih : ih ≤ 16777216)
    (h : Real32.lt (Real32.quot W H) (Real32.quot iw ih) = true) :
    0 ≤ Real32.toInt (Real32.mul (Real32.ofInt ih) (Real32.quot W H)) ∧
      Real32.toInt (Real32.mul (Real32.ofInt ih) (Real32.quot W H)) ≤ iw := by
  rw [Real32.lt_iff] at h
  have rm := Real32.quot_roundsTo W H hW0 hW hH0 hH
  have ri := Real32.quot_roundsTo iw ih hiw0 hiw hih0 hih
  have hih' : (0 : ℚ) < ih := by exact_mod_cast hih0
  have hle : (Real32.quot W H).toRat ≤ (iw : ℚ) / ih := by
    by_contra hcon
    have := ri.nearest.le_of_le rm.nearest.1 (not_le.mp hcon).le
    linarith
  have hp := Real32.mul_roundsTo (Real32.ofInt ih) (Real32.quot W H)
    (Real32.ofInt_roundsTo ih hih0).m_pos rm.m_pos
  rw [Real32.toRat_ofInt ih hih0 hih] at hp
  have hprod : (ih : ℚ) * (Real32.quot W H).toRat ≤ iw := by
    calc (ih : ℚ) * (Real32.quot W H).toRat ≤ ih * ((iw : ℚ) / ih) :=
          mul_le_mul_of_nonneg_left hle hih'.le
      _ = iw := by field_simp
  have := hp.nearest.le_of_le (isFloat24_intCast iw hiw0 hiw) hprod
  exact Real32.toInt_bounds _ iw hp.m_pos.le (by omega) this

/-- For `int` values between 1 and `2 ^ 24`, when the ratio of the image is below the
ratio of the meter in `REAL`, the cropped height `(int)(iw / meterRatio)` lies in
`[0, ih]`. -/
theorem Real32.cropH_bounds (W H iw ih : Int) (hW0 : 0 < W) (hW : W ≤ 16777216)
    (hH0 : 0 < H) (hH : H ≤ 16777216) (hiw0 : 0 < iw) (hiw : iw ≤ 16777216)
    (hih0 : 0 < ih) (hih : ih ≤ 16777216)
    (h : Real32.lt (Real32.quot iw ih) (Real32.quot W H) = true) :
    0 ≤ Real32.toInt (Real32.div (Real32.ofInt iw) (Real32.quot W H)) ∧
      Real32.toInt (Real32.div (Real32.ofInt iw) (Real32.quot W H)) ≤ ih := by
  rw [Real32.lt_iff] at h
  have rm := Real32.quot_roundsTo W H hW0 hW hH0 hH
  have ri := Real32.quot_roundsTo iw ih hiw0 hiw hih0 hih
  have hih' : (0 : ℚ) < ih := by exact_mod_cast hih0
  have hiw' : (0 : ℚ) < iw := by exact_mod_cast hiw0
  have hge : (iw : ℚ) / ih ≤ (Real32.quot W H).toRat := by
    by_contra hcon
    have := ri.nearest.ge_of_ge rm.nearest.1 (not_le.mp hcon).le
    linarith
  have hq := Real32.div_roundsTo (Real32.ofInt iw) (Real32.quot W H)
    (Real32.ofInt_roundsTo iw hiw0).m_pos rm.m_pos
  rw [Real32.toRat_ofInt iw hiw0 hiw] at hq
  have hquot : (iw : ℚ) / (Real32.quot W H).toRat ≤ ih := by
    rw [div_le_iff₀ rm.toRat_pos]
    rw [div_le_iff₀ hih'] at hge
    linarith
  have := hq.nearest.le_of_le (isFloat24_intCast ih hih0 hih) hquot
  exact Real32.toInt_bounds _ ih hq.m_pos.le (by omega) this

/-- No `REAL` is below itself. -/
theorem Real32.lt_irrefl (a : Real32) : Real32.lt a a = false := by
  simp [Real32.lt]

/-- The single operation of mode KeepRatio, on and off the fast path. -/
theorem draw_keepRatio_eq (m : MeterImage) (canvas : Canvas) (iw ih : Int)
    (hMode : m.m_DrawMode = DRAWMODE_KEEPRATIO) (hImage : m.m_Image = some ⟨iw, ih⟩)
    (hiw : iw ≠ 0) (hih : ih ≠ 0) (hW : m.m_W ≠ 0) (hH : m.m_H ≠ 0) :
    m.Draw binary32 true canvas =
      (true, canvas ++ [{ src := ⟨0, 0, iw, ih⟩,
                          dst := keepRatioDestReal m.m_X m.m_Y m.m_W m.m_H iw ih
                            (m.m_WDefined && m.m_HDefined),
                          tiled := false }]) := by
  by_cases hFast : m.m_W = iw ∧ m.m_H = ih ∧ m.m_ScaleMargins = ⟨0, 0, 0, 0⟩
  · obtain ⟨h1, h2, h3⟩ := hFast
    simp [MeterImage.Draw, hImage, hiw, hih, h1, h2, h3, Canvas.DrawBitmap, keepRatioDestReal,
      Real32.gt, Real32.lt_irrefl]
  · have hFast := fast_path_test_false m iw ih hFast
    simp only [MeterImage.Draw, hImage, hMode, hFast]
    simp only [binary32, Real32.ne, Real32.gt, keepRatioDestReal, Real32.quot]
    cases m.m_WDefined <;> cases m.m_HDefined <;>
      simp [hiw, hih, hW, hH, Canvas.DrawBitmap]
    by_cases h1 : Real32.lt ((Real32.ofInt m.m_W).div (Real32.ofInt m.m_H))
        ((Real32.ofInt iw).div (Real32.ofInt ih)) = true <;>
      by_cases h2 : Real32.lt ((Real32.ofInt iw).div (Real32.ofInt ih))
        ((Real32.ofInt m.m_W).div (Real32.ofInt m.m_H)) = true <;> simp [h1, h2]

/-- The single operation of mode KeepRatioAndCrop, on and off the fast path. -/
theorem draw_keepRatioAndCrop_eq (m : MeterImage) (canvas : Canvas) (iw ih : Int)
    (hMode : m.m_DrawMode = DRAWMODE_KEEPRATIOANDCROP) (hImage : m.m_Image = some ⟨iw, ih⟩)
    (hiw : iw ≠ 0) (hih : ih ≠ 0) (hW : m.m_W ≠ 0) (hH : m.m_H ≠ 0) :
    m.Draw binary32 true canvas =
      (true, canvas ++ [{ src :=
                            if (m.m_WDefined && m.m_HDefined) = true ∧
                                Real32.ne (Real32.quot iw ih) (Real32.quot m.m_W m.m_H) = true
                            then keepRatioAndCropSrcReal m.m_W m.m_H iw ih
                            else ⟨0, 0, iw, ih⟩,
                          dst := ⟨m.m_X, m.m_Y, m.m_W, m.m_H⟩,
                          tiled := false }]) := by
  by_cases hFast : m.m_W = iw ∧ m.m_H = ih ∧ m.m_ScaleMargins = ⟨0, 0, 0, 0⟩
  · obtain ⟨h1, h2, h3⟩ := hFast
    simp [MeterImage.Draw, hImage, hiw, hih, h1, h2, h3, Canvas.DrawBitmap, Real32.ne,
      Real32.lt_irrefl]
  · have hFast := fast_path_test_false m iw ih hFast
    simp only [MeterImage.Draw, hImage, hMode, hFast]
    simp only [binary32, Real32.ne, Real32.gt, keepRatioAndCropSrcReal, Real32.quot]
    cases m.m_WDefined <;> cases m.m_HDefined <;>
      simp [hiw, hih, hW, hH, Canvas.DrawBitmap]
    by_cases h1 : Real32.lt ((Real32.ofInt m.m_W).div (Real32.ofInt m.m_H))
        ((Real32.ofInt iw).div (Real32.ofInt ih)) = true <;>
      by_cases h2 : Real32.lt ((Real32.ofInt iw).div (Real32.ofInt ih))
        ((Real32.ofInt m.m_W).div (Real32.ofInt m.m_H)) = true <;> simp [h1, h2]

/-- For positive sizes of at most `2 ^ 24` whose ratios differ in `REAL`, the cropped side
of mode KeepRatioAndCrop lies between 0 and the natural side. -/
theorem keepRatioAndCropSrcReal_cases (W H iw ih : Int)
    (hiw : 0 < iw) (hih : 0 < ih) (hW : 0 < W) (hH : 0 < H)
    (bW : W ≤ 16777216) (bH : H ≤ 16777216) (biw : iw ≤ 16777216) (bih : ih ≤ 16777216)
    (hne : Real32.ne (Real32.quot iw ih) (Real32.quot W H) = true) :
    (∃ c, 0 ≤ c ∧ c ≤ iw ∧
        keepRatioAndCropSrcReal W H iw ih = ⟨idiv (isub iw c) 2, 0, c, ih⟩) ∨
      (∃ c, 0 ≤ c ∧ c ≤ ih ∧
        keepRatioAndCropSrcReal W H iw ih = ⟨0, idiv (isub ih c) 2, iw, c⟩) := by
  unfold keepRatioAndCropSrcReal
  split_ifs with h1
  · left
    have hb := Real32.cropW_bounds W H iw ih hW bW hH bH hiw biw hih bih h1
    exact ⟨_, hb.1, hb.2, rfl⟩
  · right
    have h2 : Real32.lt (Real32.quot iw ih) (Real32.quot W H) = true := by
      simp only [Real32.gt] at h1
      simp only [Real32.ne, Bool.or_eq_true] at hne
      rcases hne with h | h
      · exact h
      · exact absurd h h1
    have hb := Real32.cropH_bounds W H iw ih hW bW hH bH hiw biw hih bih h2
    exact ⟨_, hb.1, hb.2, rfl⟩

/-- The list `nineSliceSpec` is the list of the nine regions, filtered. -/
theorem nineSliceSpec_eq_regions (x y W H iw ih l t r b : Int) :
    nineSliceSpec x y W H iw ih l t r b =
      ((nineSliceRegions x y W H iw ih l t r b).filter (fun p => p.1)).map (fun p => p.2) :=
  rfl

/-- The operations of mode None off the fast path are the regions of `nineSliceSpec`. -/
theorem draw_none_eq (A : RealArith) (m : MeterImage) (canvas : Canvas) (iw ih : Int)
    (hMode : m.m_DrawMode = DRAWMODE_NONE) (hImage : m.m_Image = some ⟨iw, ih⟩)
    (hiw : iw ≠ 0) (hih : ih ≠ 0) (hW : m.m_W ≠ 0) (hH : m.m_H ≠ 0)
    (hOff : ¬ (m.m_W = iw ∧ m.m_H = ih ∧ m.m_ScaleMargins = ⟨0, 0, 0, 0⟩)) :
    m.Draw A true canvas =
      (true, canvas ++ nineSliceSpec m.m_X m.m_Y m.m_W m.m_H iw ih
        m.m_ScaleMargins.left m.m_ScaleMargins.top
        m.m_ScaleMargins.right m.m_ScaleMargins.bottom) := by
  have hFast := fast_path_test_false m iw ih hOff
  simp only [MeterImage.Draw, hImage, hMode, hFast]
  by_cases ht : m.m_ScaleMargins.top > 0 <;> by_cases hl : m.m_ScaleMargins.left > 0 <;>
    by_cases hr : m.m_ScaleMargins.right > 0 <;> by_cases hb : m.m_ScaleMargins.bottom > 0 <;>
    simp [hiw, hih, hW, hH, Canvas.DrawBitmap, nineSliceSpec, ht, hl, hr, hb]

/-- When the margins are non-negative and fit in the meter and in the bitmap, the nine
regions are pairwise disjoint, in the destination and in the source, even if the
coordinates of the meter overflow. -/
theorem nineSliceRegions_pairwise_disjoint (x y W H iw ih l t r b : Int)
    (hW : IsInt32 W) (hH : IsInt32 H)
    (hiw : IsInt32 iw) (hih : IsInt32 ih)
    (hl : 0 ≤ l) (ht : 0 ≤ t) (hr : 0 ≤ r) (hb : 0 ≤ b)
    (hFitW : l + r ≤ W) (hFitIW : l + r ≤ iw) (hFitH : t + b ≤ H) (hFitIH : t + b ≤ ih) :
    List.Pairwise (fun p q : Bool × DrawOp => p.2.Disjoint q.2)
      (nineSliceRegions x y W H iw ih l t r b) := by
  unfold IsInt32 at *
  simp only [nineSliceRegions, List.pairwise_cons, List.mem_cons, List.mem_singleton,
    forall_eq_or_imp, forall_eq, List.not_mem_nil, false_imp_iff, implies_true,
    List.Pairwise.nil, and_true, DrawOp.Disjoint, Rect.Overlaps, iadd, isub, wrap32]
  repeat' apply And.intro
  all_goals omega

/-- The three outcomes of `Draw` in mode None with a loaded bitmap: nothing, the single
operation of the fast path, or the regions of `nineSliceSpec`. -/
theorem emitted_cases (A : RealArith) (m : MeterImage) (baseDraw : Bool) (iw ih : Int)
    (hMode : m.m_DrawMode = DRAWMODE_NONE) (hImage : m.m_Image = some ⟨iw, ih⟩) :
    emitted A m baseDraw = [] ∨
      (m.m_W = iw ∧ m.m_H = ih ∧ m.m_ScaleMargins = ⟨0, 0, 0, 0⟩ ∧
        emitted A m baseDraw =
          [{ src := ⟨0, 0, iw, ih⟩, dst := ⟨m.m_X, m.m_Y, m.m_W, m.m_H⟩, tiled := false }]) ∨
      (iw ≠ 0 ∧ ih ≠ 0 ∧ m.m_W ≠ 0 ∧ m.m_H ≠ 0 ∧
        emitted A m baseDraw =
          nineSliceSpec m.m_X m.m_Y m.m_W m.m_H iw ih
            m.m_ScaleMargins.left m.m_ScaleMargins.top
            m.m_ScaleMargins.right m.m_ScaleMargins.bottom) := by
  cases baseDraw with
  | false => left; simp [emitted, MeterImage.Draw]
  | true =>
    by_cases hz : iw = 0 ∨ ih = 0 ∨ m.m_W = 0 ∨ m.m_H = 0
    · left
      unfold emitted
      simp only [MeterImage.Draw, hImage]
      rcases hz with h | h | h | h <;> simp [h]
    · simp only [not_or] at hz
      obtain ⟨h1, h2, h3, h4⟩ := hz
      by_cases hFast : m.m_W = iw ∧ m.m_H = ih ∧ m.m_ScaleMargins = ⟨0, 0, 0, 0⟩
      · right; left
        obtain ⟨e1, e2, e3⟩ := hFast
        refine ⟨e1, e2, e3, ?_⟩
        simp [emitted, MeterImage.Draw, hImage, h1, h2, e1, e2, e3, Canvas.DrawBitmap]
      · right; right
        refine ⟨h1, h2, h3, h4, ?_⟩
        simp [emitted, draw_none_eq A m [] iw ih hMode hImage h1 h2 h3 h4 hFast]

/-- The list `nineSliceSpec` is the list of the nine regions with their kinds, filtered. -/
theorem nineSliceSpec_eq_tagged (x y W H iw ih l t r b : Int) :
    nineSliceSpec x y W H iw ih l t r b =
      ((nineSliceTagged x y W H iw ih l t r b).filter (fun e => e.2.1)).map (fun e => e.2.2) := by
  by_cases ht : t > 0 <;> by_cases hl : l > 0 <;> by_cases hr : r > 0 <;> by_cases hb : b > 0 <;>
    simp [nineSliceSpec, nineSliceTagged, nineSliceKinds, nineSliceRegions, ht, hl, hr, hb]

/-- When the meter has the natural size, every region has its source rectangle, moved by
the origin of the meter, as destination. -/
theorem nineSliceRegions_same_size_translate (x y W H l t r b : Int)
    (hx : IsInt32 x) (hy : IsInt32 y) :
    ∀ p ∈ nineSliceRegions x y W H W H l t r b, p.2.dst = p.2.src.translate x y := by
  unfold IsInt32 at *
  intro p hp
  simp only [nineSliceRegions, List.mem_cons, List.mem_singleton, List.not_mem_nil,
    or_false] at hp
  rcases hp with h | h | h | h | h | h | h | h | h <;> subst h <;>
    simp only [Rect.translate, Rect.mk.injEq, iadd, isub, wrap32, and_true, true_and] <;>
    (try constructor) <;> omega

/-- The method `LoadImage` leaves the identifier, the template, the measures and the
dynamic-variables flag as they were. -/
theorem LoadImage_preserves (load : Loader) (m : MeterImage) (imageName : String)
    (bLoadAlways : Bool) :
    (m.LoadImage load imageName bLoadAlways).m_ImageNameResult = m.m_ImageNameResult ∧
      (m.LoadImage load imageName bLoadAlways).m_ImageName = m.m_ImageName ∧
      (m.LoadImage load imageName bLoadAlways).m_Measures = m.m_Measures ∧
      (m.LoadImage load imageName bLoadAlways).m_DynamicVariables = m.m_DynamicVariables := by
  unfold MeterImage.LoadImage
  cases load m.m_Image imageName bLoadAlways <;> simp only [] <;>
    cases m.m_WDefined <;> cases m.m_HDefined <;> simp

/-- On an update tick with a bound measure or dynamic variables, `Update` stores the
identifier of `resolveIdentifierSpec` and calls `LoadImage` with it and with the result
of the comparison of the old and new identifiers by `wcscmp`. -/
theorem update_eq (load : Loader) (ReplaceMeasures : Replacer) (m : MeterImage)
    (hEntered : m.m_Measures ≠ [] ∨ m.m_DynamicVariables = true) :
    m.Update load ReplaceMeasures true =
      (true,
        ({ m with m_ImageNameResult :=
            resolveIdentifierSpec m.m_ImageName m.m_Measures ReplaceMeasures }).LoadImage load
          (resolveIdentifierSpec m.m_ImageName m.m_Measures ReplaceMeasures)
          (wcscmp (c_str m.m_ImageNameResult)
            (c_str (resolveIdentifierSpec m.m_ImageName m.m_Measures ReplaceMeasures)) != 0)) := by
  have hCond : (!m.m_Measures.isEmpty || m.m_DynamicVariables) = true := by
    rcases hEntered with h | h
    · cases hm : m.m_Measures with
      | nil => exact absurd hm h
      | cons a l => simp
    · simp [h]
  unfold MeterImage.Update
  simp only [hCond, if_true]
  cases hm : m.m_Measures with
  | nil => simp [resolveIdentifierSpec]
  | cons first rest =>
    by_cases hEmpty : m.m_ImageName = ""
    · have h0 : String.isEmpty "" = true := rfl
      simp [resolveIdentifierSpec, hEmpty, h0]
    · have hE : m.m_ImageName.isEmpty = false := by
        rw [Bool.eq_false_iff, ne_eq, String.isEmpty_iff]
        exact hEmpty
      cases hr : (ReplaceMeasures (first :: rest) m.m_ImageName).2 <;>
        simp [resolveIdentifierSpec, hEmpty, hE, hr]

/-- The C string of a string without a null character has all its characters. -/
theorem c_str_of_nulFree {s : String} (h : NulFree s) : c_str s = s.toList := by
  unfold c_str
  rw [List.takeWhile_eq_self_iff]
  intro c hc
  simp only [bne_iff_ne, ne_eq]
  rintro rfl
  exact h hc

/-- The result of `wcscmp` differs from 0 exactly when the two C strings differ. -/
theorem wcscmp_ne_zero (a b : List Char) : (wcscmp a b != 0) = decide (b ≠ a) := by
  unfold wcscmp
  by_cases h : a = b
  · subst h
    simp
  · have h' : b ≠ a := fun e => h e.symm
    simp [h, h']

/-- On strings without a null character, `wcscmp` differs from 0 exactly when the strings
differ. -/
theorem wcscmp_ne_zero_iff {a b : String} (ha : NulFree a) (hb : NulFree b) :
    (wcscmp (c_str a) (c_str b) != 0) = decide (b ≠ a) := by
  rw [c_str_of_nulFree ha, c_str_of_nulFree hb]
  unfold wcscmp
  by_cases h : a = b
  · subst h
    simp
  · have h' : a.toList ≠ b.toList := fun e => h (String.toList_inj.mp e)
    have h'' : b ≠ a := fun e => h e.symm
    have h3 : ¬ a.data = b.data := h'
    simp [h3, h'']

/-- A C string compares equal to itself. -/
theorem wcscmp_self (a : List Char) : (wcscmp a a != 0) = false := by
  simp [wcscmp]

/-- The method `LoadImage` leaves the draw mode as it was. -/
theorem LoadImage_drawMode (load : Loader) (m : MeterImage) (imageName : String)
    (bLoadAlways : Bool) :
    (m.LoadImage load imageName bLoadAlways).m_DrawMode = m.m_DrawMode := by
  unfold MeterImage.LoadImage
  cases load m.m_Image imageName bLoadAlways <;>
    cases m.m_WDefined <;> cases m.m_HDefined <;> simp

/-- The method `Initialize` leaves the draw mode as it was. -/
theorem Initialize_drawMode (load : Loader) (m : MeterImage) :
    (m.Initialize load).m_DrawMode = m.m_DrawMode := by
  unfold MeterImage.Initialize
  split
  · exact LoadImage_drawMode load _ _ _
  · rfl

/-- The checked `LoadImage` always has a result, that of `LoadImage`. -/
theorem LoadImageChecked_eq (load : Loader) (m : MeterImage) (imageName : String)
    (bLoadAlways : Bool) :
    m.LoadImageChecked load imageName bLoadAlways =
      some (m.LoadImage load imageName bLoadAlways) := by
  unfold MeterImage.LoadImageChecked MeterImage.LoadImage
  cases load m.m_Image imageName bLoadAlways with
  | none => rfl
  | some b =>
    simp only []
    cases m.m_WDefined <;> cases m.m_HDefined <;> simp [idivChecked] <;>
      split_ifs <;> simp_all

/-- The width of the centre column when the margins fit: no wrap occurs. -/
theorem isub_isub_of_fit {W l r : Int} (hW : IsInt32 W) (hl : 0 ≤ l) (hr : 0 ≤ r)
    (hFit : l + r ≤ W) : isub (isub W l) r = W - l - r := by
  unfold IsInt32 at hW
  unfold isub wrap32
  omega

/-- When the margins are non-negative and fit, the areas of the regions drawn sum to the
area of the meter in the destination and to the area of the bitmap in the source. -/
theorem nineSliceSpec_area (x y W H iw ih l t r b : Int)
    (hW : IsInt32 W) (hH : IsInt32 H) (hiw : IsInt32 iw) (hih : IsInt32 ih)
    (hl : 0 ≤ l) (ht : 0 ≤ t) (hr : 0 ≤ r) (hb : 0 ≤ b)
    (hFitW : l + r ≤ W) (hFitIW : l + r ≤ iw) (hFitH : t + b ≤ H) (hFitIH : t + b ≤ ih) :
    ((nineSliceSpec x y W H iw ih l t r b).map (fun op => op.dst.area)).sum = W * H ∧
      ((nineSliceSpec x y W H iw ih l t r b).map (fun op => op.src.area)).sum = iw * ih := by
  have e1 := isub_isub_of_fit hW hl hr hFitW
  have e2 := isub_isub_of_fit hH ht hb hFitH
  have e3 := isub_isub_of_fit hiw hl hr hFitIW
  have e4 := isub_isub_of_fit hih ht hb hFitIH
  rcases eq_or_lt_of_le hl with rfl | hl' <;> rcases eq_or_lt_of_le ht with rfl | ht' <;>
    rcases eq_or_lt_of_le hr with rfl | hr' <;> rcases eq_or_lt_of_le hb with rfl | hb' <;>
    simp [nineSliceSpec, Rect.area, *] at * <;> (try constructor) <;> (try ring)

/-- With non-negative margins, a region whose condition fails has a zero area, in the
destination and in the source. -/
theorem nineSliceRegions_skipped_area (x y W H iw ih l t r b : Int)
    (hl : 0 ≤ l) (ht : 0 ≤ t) (hr : 0 ≤ r) (hb : 0 ≤ b) :
    ∀ p ∈ nineSliceRegions x y W H iw ih l t r b,
      p.1 = false → p.2.dst.area = 0 ∧ p.2.src.area = 0 := by
  intro p hp hskip
  simp only [nineSliceRegions, List.mem_cons, List.mem_singleton, List.not_mem_nil,
    or_false] at hp
  rcases hp with h | h | h | h | h | h | h | h | h <;> subst h <;>
    simp only [decide_eq_false_iff_not, not_and, not_lt, gt_iff_lt, Bool.true_eq_false] at hskip
  · have h0 : t = 0 ∨ l = 0 := by
      rcases eq_or_lt_of_le ht with h | h
      · exact Or.inl h.symm
      · exact Or.inr (le_antisymm (hskip h) hl)
    rcases h0 with h | h <;> simp [Rect.area, h]
  · have h0 : t = 0 := le_antisymm hskip ht
    simp [Rect.area, h0]
  · have h0 : t = 0 ∨ r = 0 := by
      rcases eq_or_lt_of_le ht with h | h
      · exact Or.inl h.symm
      · exact Or.inr (le_antisymm (hskip h) hr)
    rcases h0 with h | h <;> simp [Rect.area, h]
  · have h0 : l = 0 := le_antisymm hskip hl
    simp [Rect.area, h0]
  · have h0 : r = 0 := le_antisymm hskip hr
    simp [Rect.area, h0]
  · have h0 : b = 0 ∨ l = 0 := by
      rcases eq_or_lt_of_le hb with h | h
      · exact Or.inl h.symm
      · exact Or.inr (le_antisymm (hskip h) hl)
    rcases h0 with h | h <;> simp [Rect.area, h]
  · have h0 : b = 0 := le_antisymm hskip hb
    simp [Rect.area, h0]
  · have h0 : b = 0 ∨ r = 0 := by
      rcases eq_or_lt_of_le hb with h | h
      · exact Or.inl h.symm
      · exact Or.inr (le_antisymm (hskip h) hr)
    rcases h0 with h | h <;> simp [Rect.area, h]

/-- The `int` quotient of a non-negative `int` by a positive divisor is the floor quotient. -/
theorem idiv_of_nonneg {a d : Int} (ha : 0 ≤ a) (ha32 : IsInt32 a) (hd : 0 < d) :
    idiv a d = a / d := by
  unfold idiv
  rw [wrap32_of_isInt32 (isInt32_tdiv ha32 hd), Int.tdiv_eq_ediv ha hd.le]

/-- The `int` expression `a * b / d` on positive operands of at most `2 ^ 24` with
`a * b < n * d` lies between `-2 ^ 25` and `n`, even when the product overflows. -/
theorem idiv_imul_bounds {a b d n : Int} (ha : 0 < a) (hb : 0 < b) (hd : 0 < d)
    (hn : n ≤ 16777216) (h : a * b < n * d) :
    -33554432 ≤ idiv (imul a b) d ∧ idiv (imul a b) d ≤ n := by
  refine ⟨?_, idiv_imul_le ha.le hb.le hd h⟩
  have hab : 0 ≤ a * b := mul_nonneg ha.le hb.le
  unfold idiv imul
  rw [wrap32_of_isInt32 (isInt32_tdiv (isInt32_wrap32 _) hd)]
  rcases le_or_lt 0 (wrap32 (a * b)) with hp | hp
  · have := Int.tdiv_nonneg hp hd.le
    omega
  · have hbig : 2147483648 ≤ a * b := by
      unfold wrap32 at hp
      omega
    have hd129 : 129 ≤ d := by
      by_contra hcon
      have h1 : d ≤ 128 := by omega
      have h2 : n * d ≤ 16777216 * 128 := by
        have hn0 : 0 ≤ n := by
          by_contra hneg
          have : n * d ≤ 0 := mul_nonpos_of_nonpos_of_nonneg (by omega) hd.le
          omega
        calc n * d ≤ 16777216 * d := mul_le_mul_of_nonneg_right hn hd.le
          _ ≤ 16777216 * 128 := by omega
      omega
    have hlow : -2147483648 ≤ wrap32 (a * b) := (isInt32_wrap32 _).1
    have h0 : 0 ≤ -wrap32 (a * b) := by omega
    have h3 : Int.tdiv (-wrap32 (a * b)) d = (-wrap32 (a * b)) / d :=
      Int.tdiv_eq_ediv h0 hd.le
    rw [Int.neg_tdiv] at h3
    have h4 : (-wrap32 (a * b)) / d ≤ 33554432 :=
      Int.ediv_le_of_le_mul hd (by omega)
    omega

/-- The operation of mode KeepRatio stays in bounds when the sizes are positive and, with
both dimensions explicit, at most `2 ^ 24`, even when a product overflows. -/
theorem keepRatioDestReal_inBounds (x y W H iw ih : Int) (e : Bool)
    (hiw : 0 < iw) (hih : 0 < ih) (hW : 0 < W) (hH : 0 < H)
    (hB : e = true → W ≤ 16777216 ∧ H ≤ 16777216 ∧ iw ≤ 16777216 ∧ ih ≤ 16777216) :
    DrawOp.InBounds { src := ⟨0, 0, iw, ih⟩, dst := keepRatioDestReal x y W H iw ih e,
                      tiled := false } x y W H iw ih := by
  unfold keepRatioDestReal
  split_ifs with h1 h2
  · obtain ⟨bW, bH, biw, bih⟩ := hB h1.1
    have h := Real32.quot_lt W H iw ih hW bW hH bH hiw biw hih bih h1.2
    obtain ⟨hlo, hhi⟩ := idiv_imul_bounds hW hih hiw bH (by linarith : W * ih < H * iw)
    generalize idiv (imul W ih) iw = dh at *
    have e2 : isub H dh = H - dh := by
      unfold isub wrap32
      omega
    have e3 : idiv (H - dh) 2 = (H - dh) / 2 :=
      idiv_of_nonneg (by omega) ⟨by omega, by omega⟩ (by norm_num)
    simp only [DrawOp.InBounds, e2, e3]
    unfold isub iadd wrap32
    omega
  · obtain ⟨bW, bH, biw, bih⟩ := hB h2.1
    have h := Real32.quot_lt iw ih W H hiw biw hih bih hW bW hH bH h2.2
    obtain ⟨hlo, hhi⟩ := idiv_imul_bounds hH hiw hih bW (by linarith : H * iw < W * ih)
    generalize idiv (imul H iw) ih = dw at *
    have e2 : isub W dw = W - dw := by
      unfold isub wrap32
      omega
    have e3 : idiv (W - dw) 2 = (W - dw) / 2 :=
      idiv_of_nonneg (by omega) ⟨by omega, by omega⟩ (by norm_num)
    simp only [DrawOp.InBounds, e2, e3]
    unfold isub iadd wrap32
    omega
  · simp only [DrawOp.InBounds]
    unfold isub wrap32
    omega

/-- The operation of mode KeepRatioAndCrop with ratios that differ in `REAL` stays in
bounds when the sizes are positive and at most `2 ^ 24`. -/
theorem keepRatioAndCropSrcReal_inBounds (x y W H iw ih : Int)
    (hiw : 0 < iw) (hih : 0 < ih) (hW : 0 < W) (hH : 0 < H)
    (bW : W ≤ 16777216) (bH : H ≤ 16777216) (biw : iw ≤ 16777216) (bih : ih ≤ 16777216)
    (hne : Real32.ne (Real32.quot iw ih) (Real32.quot W H) = true) :
    DrawOp.InBounds { src := keepRatioAndCropSrcReal W H iw ih, dst := ⟨x, y, W, H⟩,
                      tiled := false } x y W H iw ih := by
  rcases keepRatioAndCropSrcReal_cases W H iw ih hiw hih hW hH bW bH biw bih hne with
    ⟨c, h0, h1, he⟩ | ⟨c, h0, h1, he⟩
  · rw [he]
    have e2 : isub iw c = iw - c := by
      unfold isub wrap32
      omega
    have e3 : idiv (iw - c) 2 = (iw - c) / 2 :=
      idiv_of_nonneg (by omega) ⟨by omega, by omega⟩ (by norm_num)
    simp only [DrawOp.InBounds, e2, e3]
    unfold isub wrap32
    omega
  · rw [he]
    have e2 : isub ih c = ih - c := by
      unfold isub wrap32
      omega
    have e3 : idiv (ih - c) 2 = (ih - c) / 2 :=
      idiv_of_nonneg (by omega) ⟨by omega, by omega⟩ (by norm_num)
    simp only [DrawOp.InBounds, e2, e3]
    unfold isub wrap32
    omega

/-! ## Theorems -/

/-- C1 (fast path). Whatever the draw mode, when the bitmap is loaded with a natural
size `(w, h)` whose components are not zero, the meter has that same size and the four
margins are zero, `Draw` sends exactly one operation to the canvas: untiled, from the
source rectangle `(0, 0, w, h)` to the destination rectangle `(x, y, w, h)` at the
origin of the meter; and it returns `true`. -/
theorem Draw_fast_path (A : RealArith) (m : MeterImage) (canvas : Canvas) (w h : Int)
    (hImage : m.m_Image = some ⟨w, h⟩) (hw : w ≠ 0) (hh : h ≠ 0)
    (hW : m.m_W = w) (hH : m.m_H = h) (hMargins : m.m_ScaleMargins = ⟨0, 0, 0, 0⟩) :
    m.Draw A true canvas =
      (true, canvas ++ [{ src := ⟨0, 0, w, h⟩,
                          dst := ⟨m.m_X, m.m_Y, w, h⟩,
                          tiled := false }]) := by
  simp [MeterImage.Draw, hImage, hw, hh, hW, hH, hMargins, Canvas.DrawBitmap]

/-- Witness of C1: the tiled 40 by 10 meter showing a 40 by 10 bitmap. -/
theorem Draw_fast_path_witness :
    (meterSameSize DRAWMODE_TILE).Draw binary32 true [] =
      (true, [{ src := ⟨0, 0, 40, 10⟩, dst := ⟨3, 4, 40, 10⟩, tiled := false }]) :=
  Draw_fast_path binary32 (meterSameSize DRAWMODE_TILE) [] 40 10 rfl (by decide) (by decide)
    rfl rfl rfl

/-- C2 (dimension resolver). When the loader yields a bitmap of natural size
`(iw, ih)`, the width and height of the meter after `LoadImage` are those of the
reference definition `resolveSpec`: unchanged when both are explicit; with only the
width explicit, the height is 0 if `iw = 0`, else `ih` in mode Tile, else
`W * ih / iw` truncated; symmetrically with only the height explicit; `(iw, ih)` when
neither is explicit. -/
theorem LoadImage_eq_resolveSpec (load : Loader) (m : MeterImage) (imageName : String)
    (bLoadAlways : Bool) (iw ih : Int)
    (hLoaded : load m.m_Image imageName bLoadAlways = some ⟨iw, ih⟩) :
    ((m.LoadImage load imageName bLoadAlways).m_W,
        (m.LoadImage load imageName bLoadAlways).m_H) =
      resolveSpec (iw, ih) m.m_WDefined m.m_HDefined m.m_DrawMode (m.m_W, m.m_H) := by
  cases hWD : m.m_WDefined <;> cases hHD : m.m_HDefined <;>
    simp [MeterImage.LoadImage, resolveSpec, hLoaded, hWD, hHD]

/-- Witness of C2: natural size (100, 50), explicit width 200, mode KeepRatio give the
derived height 100. -/
theorem LoadImage_eq_resolveSpec_witness :
    ((meterWidth200.LoadImage loader100x50 sampleName true).m_W,
      (meterWidth200.LoadImage loader100x50 sampleName true).m_H) = (200, 100) :=
  LoadImage_eq_resolveSpec loader100x50 meterWidth200 sampleName true 100 50 rfl

/-- Counterexample to C3 as stated: a 2949 by 2948 bitmap in a 2948 by 2947 meter, both
dimensions explicit, in mode KeepRatio. As exact numbers `2949 / 2948 < 2948 / 2947`, so
the claimed destination is `(0, 0, 2947, 2947)`; rounded to `REAL` the two ratios are
equal, and `Draw` fills the target rectangle `(0, 0, 2948, 2947)`. -/
theorem Draw_keepRatio_rounded_ratios_equal :
    (meterNearSquare DRAWMODE_KEEPRATIO).Draw binary32 true [] =
        (true, [{ src := ⟨0, 0, 2949, 2948⟩, dst := ⟨0, 0, 2948, 2947⟩, tiled := false }]) ∧
      keepRatioDestSpec 0 0 2948 2947 2949 2948 true = ⟨0, 0, 2947, 2947⟩ ∧
      (meterNearSquare DRAWMODE_KEEPRATIO).Draw binary32 true [] ≠
        (true, [{ src := ⟨0, 0, 2949, 2948⟩,
                  dst := keepRatioDestSpec 0 0 2948 2947 2949 2948 true,
                  tiled := false }]) := by
  have h1 : (meterNearSquare DRAWMODE_KEEPRATIO).Draw binary32 true [] =
      (true, [{ src := ⟨0, 0, 2949, 2948⟩, dst := ⟨0, 0, 2948, 2947⟩, tiled := false }]) := by
    decide
  have h2 : keepRatioDestSpec 0 0 2948 2947 2949 2948 true = ⟨0, 0, 2947, 2947⟩ := by
    norm_num [keepRatioDestSpec]
    decide
  refine ⟨h1, h2, ?_⟩
  rw [h1, h2]
  decide

/-- C3 amended (KeepRatio layout, ratios in `REAL`). In mode KeepRatio, for a loaded
bitmap of natural size `(iw, ih)` and a meter of size `(W, H)`, all four values non-zero,
`Draw` sends exactly one operation: untiled, with the full natural rectangle
`(0, 0, iw, ih)` as source and `keepRatioDestReal` as destination, that is, with the
ratios `imageRatio = iw / (REAL)ih` and `meterRatio = W / (REAL)H` rounded to `REAL`:
`(x, y + (H - dh) / 2, W, dh)` with `dh = W * ih / iw` when both dimensions are explicit
and `imageRatio > meterRatio`, `(x + (W - dw) / 2, y, dw, H)` with `dw = H * iw / ih`
when both are explicit and `imageRatio < meterRatio`, and `(x, y, W, H)` when the rounded
ratios are equal or the dimensions are not both explicit. This holds off the fast path and
also on it. -/
theorem Draw_keepRatio (m : MeterImage) (canvas : Canvas) (iw ih : Int)
    (hMode : m.m_DrawMode = DRAWMODE_KEEPRATIO) (hImage : m.m_Image = some ⟨iw, ih⟩)
    (hiw : iw ≠ 0) (hih : ih ≠ 0) (hW : m.m_W ≠ 0) (hH : m.m_H ≠ 0) :
    m.Draw binary32 true canvas =
      (true, canvas ++ [{ src := ⟨0, 0, iw, ih⟩,
                          dst := keepRatioDestReal m.m_X m.m_Y m.m_W m.m_H iw ih
                            (m.m_WDefined && m.m_HDefined),
                          tiled := false }]) :=
  draw_keepRatio_eq m canvas iw ih hMode hImage hiw hih hW hH

/-- Witness of C3 amended: a 100 by 100 bitmap in a 50 by 100 meter is letterboxed to 50
by 50, 25 pixels down. -/
theorem Draw_keepRatio_witness :
    (meter50x100 DRAWMODE_KEEPRATIO).Draw binary32 true [] =
      (true, [{ src := ⟨0, 0, 100, 100⟩, dst := ⟨0, 25, 50, 50⟩, tiled := false }]) := by
  have h := Draw_keepRatio (meter50x100 DRAWMODE_KEEPRATIO) [] 100 100 rfl rfl
    (by decide) (by decide) (by decide) (by decide)
  rw [h]
  decide

/-- Counterexample to C4 as stated: a 981 by 165 bitmap in a 344 by 132 meter in mode
KeepRatioAndCrop. The claimed width `trunc (165 * 344 / 132)` is 430, with the offset
`(981 - 430) / 2 = 275`; in `REAL` the ratio `344 / 132` is rounded down, the product
with 165 falls below 430, and `Draw` crops the width 429 at the offset 276. -/
theorem Draw_keepRatioAndCrop_rounded_width :
    meterBanner.Draw binary32 true [] =
        (true, [{ src := ⟨276, 0, 429, 165⟩, dst := ⟨0, 0, 344, 132⟩, tiled := false }]) ∧
      keepRatioAndCropSrcSpec 344 132 981 165 = ⟨275, 0, 430, 165⟩ ∧
      meterBanner.Draw binary32 true [] ≠
        (true, [{ src := keepRatioAndCropSrcSpec 344 132 981 165,
                  dst := ⟨0, 0, 344, 132⟩, tiled := false }]) := by
  have h1 : meterBanner.Draw binary32 true [] =
      (true, [{ src := ⟨276, 0, 429, 165⟩, dst := ⟨0, 0, 344, 132⟩, tiled := false }]) := by
    decide
  have h2 : keepRatioAndCropSrcSpec 344 132 981 165 = ⟨275, 0, 430, 165⟩ := by
    norm_num [keepRatioAndCropSrcSpec, toInt32, truncQ]
    decide
  refine ⟨h1, h2, ?_⟩
  rw [h1, h2]
  decide

/-- C4 amended (KeepRatioAndCrop layout, ratios in `REAL`). In mode KeepRatioAndCrop, for
a loaded bitmap of non-zero natural size `(iw, ih)` and a meter of explicit non-zero size
`(W, H)` whose ratios `imageRatio = iw / (REAL)ih` and `meterRatio = W / (REAL)H`,
rounded to `REAL`, differ, `Draw` sends exactly one operation: untiled, with the full
target rectangle `(x, y, W, H)` as destination and `keepRatioAndCropSrcReal` as source,
that is `(cropX, 0, cropW, ih)` with `cropW = (int)(ih * meterRatio)`, the product
rounded to `REAL`, and `cropX = (iw - cropW) / 2` when `imageRatio > meterRatio`, and
`(0, cropY, iw, cropH)` with `cropH = (int)(iw / meterRatio)`, the quotient rounded to
`REAL`, and `cropY = (ih - cropH) / 2` otherwise. -/
theorem Draw_keepRatioAndCrop (m : MeterImage) (canvas : Canvas) (iw ih : Int)
    (hMode : m.m_DrawMode = DRAWMODE_KEEPRATIOANDCROP) (hImage : m.m_Image = some ⟨iw, ih⟩)
    (hiw : iw ≠ 0) (hih : ih ≠ 0) (hW : m.m_W ≠ 0) (hH : m.m_H ≠ 0)
    (hWD : m.m_WDefined = true) (hHD : m.m_HDefined = true)
    (hRatio : Real32.ne (Real32.quot iw ih) (Real32.quot m.m_W m.m_H) = true) :
    m.Draw binary32 true canvas =
      (true, canvas ++ [{ src := keepRatioAndCropSrcReal m.m_W m.m_H iw ih,
                          dst := ⟨m.m_X, m.m_Y, m.m_W, m.m_H⟩,
                          tiled := false }]) := by
  rw [draw_keepRatioAndCrop_eq m canvas iw ih hMode hImage hiw hih hW hH]
  simp [hWD, hHD, hRatio]

/-- Witness of C4 amended: natural size (100, 100) and target (50, 100) give the source
rectangle (25, 0, 50, 100) and the destination rectangle (0, 0, 50, 100). -/
theorem Draw_keepRatioAndCrop_witness :
    (meter50x100 DRAWMODE_KEEPRATIOANDCROP).Draw binary32 true [] =
      (true, [{ src := ⟨25, 0, 50, 100⟩, dst := ⟨0, 0, 50, 100⟩, tiled := false }]) := by
  have h := Draw_keepRatioAndCrop (meter50x100 DRAWMODE_KEEPRATIOANDCROP) [] 100 100 rfl rfl
    (by decide) (by decide) (by decide) (by decide) rfl rfl (by decide)
  rw [h]
  decide

/-- C5 (nine-slice emission order and conditions). In mode None off the fast path, for a
loaded bitmap and a meter whose sizes are non-zero and for any margins `(l, t, r, b)`,
the operations `Draw` sends are exactly `nineSliceSpec`: the regions top-left (drawn
iff `t > 0` and `l > 0`), top (iff `t > 0`), top-right (iff `t > 0` and `r > 0`), left
(iff `l > 0`), centre (always), right (iff `r > 0`), bottom-left (iff `b > 0` and
`l > 0`), bottom (iff `b > 0`), bottom-right (iff `b > 0` and `r > 0`), in that order,
the centre going from the source `(l, t, iw - l - r, ih - t - b)` to the destination of
size `(W - l - r, H - t - b)` at offset `(l, t)`; and there are exactly 9 operations
when the four margins are positive. -/
theorem Draw_nineSlice (A : RealArith) (m : MeterImage) (canvas : Canvas) (iw ih : Int)
    (hMode : m.m_DrawMode = DRAWMODE_NONE) (hImage : m.m_Image = some ⟨iw, ih⟩)
    (hiw : iw ≠ 0) (hih : ih ≠ 0) (hW : m.m_W ≠ 0) (hH : m.m_H ≠ 0)
    (hOff : ¬ (m.m_W = iw ∧ m.m_H = ih ∧ m.m_ScaleMargins = ⟨0, 0, 0, 0⟩)) :
    m.Draw A true canvas =
        (true, canvas ++ nineSliceSpec m.m_X m.m_Y m.m_W m.m_H iw ih
          m.m_ScaleMargins.left m.m_ScaleMargins.top
          m.m_ScaleMargins.right m.m_ScaleMargins.bottom) ∧
      (0 < m.m_ScaleMargins.left ∧ 0 < m.m_ScaleMargins.top ∧
        0 < m.m_ScaleMargins.right ∧ 0 < m.m_ScaleMargins.bottom →
        (nineSliceSpec m.m_X m.m_Y m.m_W m.m_H iw ih
          m.m_ScaleMargins.left m.m_ScaleMargins.top
          m.m_ScaleMargins.right m.m_ScaleMargins.bottom).length = 9) := by
  have hFast := fast_path_test_false m iw ih hOff
  constructor
  · simp only [MeterImage.Draw, hImage, hMode, hFast]
    by_cases ht : m.m_ScaleMargins.top > 0 <;> by_cases hl : m.m_ScaleMargins.left > 0 <;>
      by_cases hr : m.m_ScaleMargins.right > 0 <;> by_cases hb : m.m_ScaleMargins.bottom > 0 <;>
      simp [hiw, hih, hW, hH, Canvas.DrawBitmap, nineSliceSpec, ht, hl, hr, hb]
  · rintro ⟨hl, ht, hr, hb⟩
    simp [nineSliceSpec, hl, ht, hr, hb]

/-- Witness of C5: the nine operations of a 20 by 12 meter at (5, 6) with the margins
(2, 3, 4, 1) over a 10 by 10 bitmap. -/
theorem Draw_nineSlice_witness :
    meterNineSlice.Draw binary32 true [] =
        (true,
          [{ src := ⟨0, 0, 2, 3⟩, dst := ⟨5, 6, 2, 3⟩, tiled := false },
           { src := ⟨2, 0, 4, 3⟩, dst := ⟨7, 6, 14, 3⟩, tiled := false },
           { src := ⟨6, 0, 4, 3⟩, dst := ⟨21, 6, 4, 3⟩, tiled := false },
           { src := ⟨0, 3, 2, 6⟩, dst := ⟨5, 9, 2, 8⟩, tiled := false },
           { src := ⟨2, 3, 4, 6⟩, dst := ⟨7, 9, 14, 8⟩, tiled := false },
           { src := ⟨6, 3, 4, 6⟩, dst := ⟨21, 9, 4, 8⟩, tiled := false },
           { src := ⟨0, 9, 2, 1⟩, dst := ⟨5, 17, 2, 1⟩, tiled := false },
           { src := ⟨2, 9, 4, 1⟩, dst := ⟨7, 17, 14, 1⟩, tiled := false },
           { src := ⟨6, 9, 4, 1⟩, dst := ⟨21, 17, 4, 1⟩, tiled := false }]) :=
  (Draw_nineSlice binary32 meterNineSlice [] 10 10 rfl rfl
    (by decide) (by decide) (by decide) (by decide) (by decide)).1

/-- Counterexample to C6 as stated: a tiled 40 by 10 meter whose bitmap is also 40 by 10,
without margins, takes the fast path, so its single operation is not tiled. -/
theorem Draw_tile_same_size_untiled :
    (meterSameSize DRAWMODE_TILE).m_DrawMode = DRAWMODE_TILE ∧
      (meterSameSize DRAWMODE_TILE).m_Image = some ⟨40, 10⟩ ∧
      (meterSameSize DRAWMODE_TILE).m_W = 40 ∧ (meterSameSize DRAWMODE_TILE).m_H = 10 ∧
      (meterSameSize DRAWMODE_TILE).Draw binary32 true [] =
        (true, [{ src := ⟨0, 0, 40, 10⟩, dst := ⟨3, 4, 40, 10⟩, tiled := false }]) ∧
      (meterSameSize DRAWMODE_TILE).Draw binary32 true [] ≠
        (true, [{ src := ⟨0, 0, 40, 10⟩, dst := ⟨3, 4, 40, 10⟩, tiled := true }]) := by
  decide

/-- C6 amended (Tile layout). In mode Tile off the fast path (the meter's size differs
from the natural size or some margin is not zero), for a loaded bitmap and a meter whose
sizes are non-zero, `Draw` sends exactly one operation, tiled, with the source rectangle
`(0, 0, W, H)` and the target rectangle `(x, y, W, H)` as destination. -/
theorem Draw_tile (A : RealArith) (m : MeterImage) (canvas : Canvas) (iw ih : Int)
    (hMode : m.m_DrawMode = DRAWMODE_TILE) (hImage : m.m_Image = some ⟨iw, ih⟩)
    (hiw : iw ≠ 0) (hih : ih ≠ 0) (hW : m.m_W ≠ 0) (hH : m.m_H ≠ 0)
    (hOff : ¬ (m.m_W = iw ∧ m.m_H = ih ∧ m.m_ScaleMargins = ⟨0, 0, 0, 0⟩)) :
    m.Draw A true canvas =
      (true, canvas ++ [{ src := ⟨0, 0, m.m_W, m.m_H⟩,
                          dst := ⟨m.m_X, m.m_Y, m.m_W, m.m_H⟩,
                          tiled := true }]) := by
  have hFast := fast_path_test_false m iw ih hOff
  simp only [MeterImage.Draw, hImage, hMode, hFast]
  simp [hiw, hih, hW, hH, Canvas.DrawImageTiled]

/-- Witness of C6 amended: target (40, 10) over a 4 by 10 bitmap. -/
theorem Draw_tile_witness :
    meterTile.Draw binary32 true [] =
      (true, [{ src := ⟨0, 0, 40, 10⟩, dst := ⟨3, 4, 40, 10⟩, tiled := true }]) :=
  Draw_tile binary32 meterTile [] 4 10 rfl rfl
    (by decide) (by decide) (by decide) (by decide) (by decide)

/-- C7 (degenerate geometry and load failure are silent). Whatever the draw mode and the
margins, when the base meter's draw check passed and the bitmap is not loaded, or the
meter's width or height is 0, or the bitmap's width or height is 0, `Draw` leaves the
canvas as it was and returns `true`. -/
theorem Draw_degenerate_silent (A : RealArith) (m : MeterImage) (canvas : Canvas)
    (h : m.m_Image = none ∨ m.m_W = 0 ∨ m.m_H = 0 ∨
      ∃ b, m.m_Image = some b ∧ (b.width = 0 ∨ b.height = 0)) :
    m.Draw A true canvas = (true, canvas) := by
  cases hImage : m.m_Image with
  | none => simp [MeterImage.Draw, hImage]
  | some b =>
    have hz : b.width = 0 ∨ b.height = 0 ∨ m.m_W = 0 ∨ m.m_H = 0 := by
      rcases h with h | h | h | ⟨b', hb', h⟩
      · simp [hImage] at h
      · exact Or.inr (Or.inr (Or.inl h))
      · exact Or.inr (Or.inr (Or.inr h))
      · rw [hImage] at hb'
        cases hb'
        rcases h with h | h
        · exact Or.inl h
        · exact Or.inr (Or.inl h)
    simp only [MeterImage.Draw, hImage]
    rcases hz with h | h | h | h <;> simp [h]

/-- Witness of C7: a meter of width 0 draws nothing and reports success. -/
theorem Draw_degenerate_silent_witness :
    meterZeroWidth.Draw binary32 true [] = (true, []) :=
  Draw_degenerate_silent binary32 meterZeroWidth [] (Or.inr (Or.inl rfl))

/-- C10 (zero margins never produce a nine-slice breakdown). In mode None with the four
margins zero, for a loaded bitmap and a meter whose sizes are non-zero, equal or not,
`Draw` sends exactly one untiled operation from the full natural rectangle
`(0, 0, iw, ih)` to the full target rectangle `(x, y, W, H)`: the nine-slice branch
yields the operation of the fast path. -/
theorem Draw_none_zero_margins (A : RealArith) (m : MeterImage) (canvas : Canvas) (iw ih : Int)
    (hTyped : m.WellTyped)
    (hMode : m.m_DrawMode = DRAWMODE_NONE) (hImage : m.m_Image = some ⟨iw, ih⟩)
    (hiw : iw ≠ 0) (hih : ih ≠ 0) (hW : m.m_W ≠ 0) (hH : m.m_H ≠ 0)
    (hMargins : m.m_ScaleMargins = ⟨0, 0, 0, 0⟩) :
    m.Draw A true canvas =
      (true, canvas ++ [{ src := ⟨0, 0, iw, ih⟩,
                          dst := ⟨m.m_X, m.m_Y, m.m_W, m.m_H⟩,
                          tiled := false }]) := by
  obtain ⟨hx, hy, hw, hh, -, -, -, -, hb⟩ := hTyped
  obtain ⟨hbw, hbh⟩ := hb _ hImage
  by_cases hSame : m.m_W = iw ∧ m.m_H = ih
  · simp [MeterImage.Draw, hImage, hiw, hih, hW, hH, hSame.1, hSame.2, hMargins,
      Canvas.DrawBitmap]
  · have hFast := fast_path_test_false m iw ih (fun h => hSame ⟨h.1, h.2.1⟩)
    simp only [MeterImage.Draw, hImage, hMode, hFast]
    simp [hiw, hih, hW, hH, hMargins, Canvas.DrawBitmap, iadd, isub,
      wrap32_of_isInt32 hx, wrap32_of_isInt32 hy, wrap32_of_isInt32 hw, wrap32_of_isInt32 hh,
      wrap32_of_isInt32 hbw, wrap32_of_isInt32 hbh]

/-- Witness of C10: a 4 by 5 bitmap stretched over a 40 by 10 meter. -/
theorem Draw_none_zero_margins_witness :
    meterStretch.Draw binary32 true [] =
      (true, [{ src := ⟨0, 0, 4, 5⟩, dst := ⟨3, 4, 40, 10⟩, tiled := false }]) :=
  Draw_none_zero_margins binary32 meterStretch [] 4 5
    ⟨by decide, by decide, by decide, by decide, by decide, by decide, by decide, by decide,
      fun b hb => Option.some.inj hb ▸ by decide⟩
    rfl rfl (by decide) (by decide) (by decide) (by decide) rfl

/-- Counterexample to C11 as stated: on a 10 by 10 meter over a 10 by 10 bitmap with the
non-negative margins (6, 2, 6, 2), the top-left and top-right corners, first and third
of the operations sent, overlap in the destination and in the source. -/
theorem Draw_nineSlice_overlap :
    meterWideMargins.m_DrawMode = DRAWMODE_NONE ∧
      meterWideMargins.m_ScaleMargins = ⟨6, 2, 6, 2⟩ ∧
      meterWideMargins.m_W = 10 ∧ meterWideMargins.m_H = 10 ∧
      meterWideMargins.m_Image = some ⟨10, 10⟩ ∧
      (emitted binary32 meterWideMargins true).get? 0 =
        some { src := ⟨0, 0, 6, 2⟩, dst := ⟨0, 0, 6, 2⟩, tiled := false } ∧
      (emitted binary32 meterWideMargins true).get? 2 =
        some { src := ⟨4, 0, 6, 2⟩, dst := ⟨4, 0, 6, 2⟩, tiled := false } ∧
      ¬ List.Pairwise DrawOp.Disjoint (emitted binary32 meterWideMargins true) := by
  decide

/-- C11 amended (nine-slice regions are disjoint). In mode None, for a loaded bitmap of
natural size `(iw, ih)` and a meter of size `(W, H)`, with non-negative margins that fit
(`l + r ≤ min W iw` and `t + b ≤ min H ih`), no two distinct operations sent by `Draw`
have overlapping destination rectangles or overlapping source rectangles. -/
theorem Draw_nineSlice_disjoint (A : RealArith) (m : MeterImage) (baseDraw : Bool)
    (iw ih : Int) (hTyped : m.WellTyped)
    (hMode : m.m_DrawMode = DRAWMODE_NONE) (hImage : m.m_Image = some ⟨iw, ih⟩)
    (hl : 0 ≤ m.m_ScaleMargins.left) (ht : 0 ≤ m.m_ScaleMargins.top)
    (hr : 0 ≤ m.m_ScaleMargins.right) (hb : 0 ≤ m.m_ScaleMargins.bottom)
    (hFitW : m.m_ScaleMargins.left + m.m_ScaleMargins.right ≤ min m.m_W iw)
    (hFitH : m.m_ScaleMargins.top + m.m_ScaleMargins.bottom ≤ min m.m_H ih) :
    List.Pairwise DrawOp.Disjoint (emitted A m baseDraw) := by
  obtain ⟨-, -, hW32, hH32, -, -, -, -, hbm⟩ := hTyped
  have hiw32 : IsInt32 iw := (hbm _ hImage).1
  have hih32 : IsInt32 ih := (hbm _ hImage).2
  rcases emitted_cases A m baseDraw iw ih hMode hImage with h | ⟨-, -, -, h⟩ | ⟨-, -, -, -, h⟩
  · simp [h]
  · simp [h]
  · rw [h, nineSliceSpec_eq_regions, List.pairwise_map]
    exact (nineSliceRegions_pairwise_disjoint m.m_X m.m_Y m.m_W m.m_H iw ih _ _ _ _
      hW32 hH32 hiw32 hih32
      hl ht hr hb (by omega) (by omega) (by omega) (by omega)).filter _

/-- Witness of C11 amended: the nine regions of a 20 by 12 meter with the margins
(2, 3, 4, 1) over a 10 by 10 bitmap. -/
theorem Draw_nineSlice_disjoint_witness :
    List.Pairwise DrawOp.Disjoint (emitted binary32 meterNineSlice true) :=
  Draw_nineSlice_disjoint binary32 meterNineSlice true 10 10
    ⟨by decide, by decide, by decide, by decide, by decide, by decide, by decide, by decide,
      fun b hb => Option.some.inj hb ▸ by decide⟩
    rfl rfl (by decide) (by decide) (by decide) (by decide) (by decide) (by decide)

/-- C12 (nine-slice corners and edges do not scale). In mode None off the fast path, for a
loaded bitmap and a meter whose sizes are non-zero, the operations `Draw` sends are the
regions of `nineSliceTagged` whose condition holds, and among these regions every corner
has a destination of the width and height of its source, the top and bottom edges a
destination of the height of their source, the left and right edges a destination of the
width of their source; so no region but the centre changes size in both axes. -/
theorem Draw_nineSlice_unscaled (A : RealArith) (m : MeterImage) (canvas : Canvas) (iw ih : Int)
    (hMode : m.m_DrawMode = DRAWMODE_NONE) (hImage : m.m_Image = some ⟨iw, ih⟩)
    (hiw : iw ≠ 0) (hih : ih ≠ 0) (hW : m.m_W ≠ 0) (hH : m.m_H ≠ 0)
    (hOff : ¬ (m.m_W = iw ∧ m.m_H = ih ∧ m.m_ScaleMargins = ⟨0, 0, 0, 0⟩)) :
    m.Draw A true canvas =
        (true, canvas ++
          ((nineSliceTagged m.m_X m.m_Y m.m_W m.m_H iw ih
              m.m_ScaleMargins.left m.m_ScaleMargins.top
              m.m_ScaleMargins.right m.m_ScaleMargins.bottom).filter
            (fun e => e.2.1)).map (fun e => e.2.2)) ∧
      ∀ e ∈ nineSliceTagged m.m_X m.m_Y m.m_W m.m_H iw ih
          m.m_ScaleMargins.left m.m_ScaleMargins.top
          m.m_ScaleMargins.right m.m_ScaleMargins.bottom,
        e.2.2.Unscaled e.1 ∧
          (e.1 ≠ SliceKind.center →
            e.2.2.dst.Width = e.2.2.src.Width ∨ e.2.2.dst.Height = e.2.2.src.Height) := by
  constructor
  · rw [draw_none_eq A m canvas iw ih hMode hImage hiw hih hW hH hOff, nineSliceSpec_eq_tagged]
  · intro e he
    simp only [nineSliceTagged, nineSliceKinds, nineSliceRegions, List.zip_cons_cons,
      List.zip_nil_right, List.mem_cons, List.mem_singleton, List.not_mem_nil, or_false] at he
    rcases he with h | h | h | h | h | h | h | h | h <;> subst h <;> simp [DrawOp.Unscaled]

/-- Witness of C12: the nine regions, with their kinds, of a 20 by 12 meter at (5, 6) with
the margins (2, 3, 4, 1) over a 10 by 10 bitmap. -/
theorem Draw_nineSlice_unscaled_witness :
    meterNineSlice.Draw binary32 true [] =
        (true, ((nineSliceTagged 5 6 20 12 10 10 2 3 4 1).filter
          (fun e => e.2.1)).map (fun e => e.2.2)) ∧
      nineSliceTagged 5 6 20 12 10 10 2 3 4 1 =
        [(.corner, true, { src := ⟨0, 0, 2, 3⟩, dst := ⟨5, 6, 2, 3⟩, tiled := false }),
         (.topBottomEdge, true, { src := ⟨2, 0, 4, 3⟩, dst := ⟨7, 6, 14, 3⟩, tiled := false }),
         (.corner, true, { src := ⟨6, 0, 4, 3⟩, dst := ⟨21, 6, 4, 3⟩, tiled := false }),
         (.leftRightEdge, true, { src := ⟨0, 3, 2, 6⟩, dst := ⟨5, 9, 2, 8⟩, tiled := false }),
         (.center, true, { src := ⟨2, 3, 4, 6⟩, dst := ⟨7, 9, 14, 8⟩, tiled := false }),
         (.leftRightEdge, true, { src := ⟨6, 3, 4, 6⟩, dst := ⟨21, 9, 4, 8⟩, tiled := false }),
         (.corner, true, { src := ⟨0, 9, 2, 1⟩, dst := ⟨5, 17, 2, 1⟩, tiled := false }),
         (.topBottomEdge, true, { src := ⟨2, 9, 4, 1⟩, dst := ⟨7, 17, 14, 1⟩, tiled := false }),
         (.corner, true, { src := ⟨6, 9, 4, 1⟩, dst := ⟨21, 17, 4, 1⟩, tiled := false })] :=
  ⟨(Draw_nineSlice_unscaled binary32 meterNineSlice [] 10 10 rfl rfl
    (by decide) (by decide) (by decide) (by decide) (by decide)).1, by decide⟩

/-- C13 (nine-slice with target equal to natural performs no scaling). In mode None, when
the meter has the natural size of the loaded bitmap, every operation `Draw` sends has
as destination its source rectangle moved by the origin of the meter: relative to the
origin, the destination equals the source. This holds with some margin non-zero and
also on the fast path. -/
theorem Draw_nineSlice_same_size (A : RealArith) (m : MeterImage) (baseDraw : Bool)
    (iw ih : Int) (hTyped : m.WellTyped)
    (hMode : m.m_DrawMode = DRAWMODE_NONE) (hImage : m.m_Image = some ⟨iw, ih⟩)
    (hW : m.m_W = iw) (hH : m.m_H = ih) :
    ∀ op ∈ emitted A m baseDraw, op.dst = op.src.translate m.m_X m.m_Y := by
  obtain ⟨hx, hy, -, -, -, -, -, -, -⟩ := hTyped
  intro op hop
  rcases emitted_cases A m baseDraw iw ih hMode hImage with h | ⟨-, -, -, h⟩ | ⟨-, -, -, -, h⟩
  · simp [h] at hop
  · rw [h, List.mem_singleton] at hop
    subst hop
    simp [Rect.translate, iadd, wrap32_of_isInt32 hx, wrap32_of_isInt32 hy, hW, hH]
  · rw [h, nineSliceSpec_eq_regions, ← hW, ← hH, List.mem_map] at hop
    obtain ⟨p, hp, rfl⟩ := hop
    exact nineSliceRegions_same_size_translate _ _ _ _ _ _ _ _ hx hy p
      (List.mem_of_mem_filter hp)

/-- Witness of C13: natural size (10, 10), target (10, 10) at the origin and margins
(2, 2, 2, 2) give exactly 9 operations, the centre going from (2, 2, 6, 6) to
(2, 2, 6, 6). -/
theorem Draw_nineSlice_same_size_witness :
    (emitted binary32 meterSameSizeMargins true).length = 9 ∧
      (emitted binary32 meterSameSizeMargins true).get? 4 =
        some { src := ⟨2, 2, 6, 6⟩, dst := ⟨2, 2, 6, 6⟩, tiled := false } ∧
      List.Forall (fun op => op.dst = op.src.translate 0 0)
        (emitted binary32 meterSameSizeMargins true) :=
  ⟨by decide, by decide,
    List.forall_iff_forall_mem.mpr
      (Draw_nineSlice_same_size binary32 meterSameSizeMargins true 10 10
        ⟨by decide, by decide, by decide, by decide, by decide, by decide, by decide,
          by decide, fun b hb => Option.some.inj hb ▸ by decide⟩
        rfl rfl rfl rfl)⟩

/-- C14 (source name resolver rules). On an update tick on which the base update succeeded,
with a measure bound or dynamic variables on, and whatever the substitution does,
`Update` returns `true` and stores the identifier of `resolveIdentifierSpec`: the
template verbatim when no measure is bound; the value of the first bound measure when
the template is empty; the substituted template when the template is not empty and the
substitution replaced something; the value of the first bound measure when the template
is not empty and the substitution replaced nothing. -/
theorem Update_resolves_identifier (load : Loader) (ReplaceMeasures : Replacer)
    (m : MeterImage) (hEntered : m.m_Measures ≠ [] ∨ m.m_DynamicVariables = true) :
    (m.Update load ReplaceMeasures true).1 = true ∧
      (m.Update load ReplaceMeasures true).2.m_ImageNameResult =
        resolveIdentifierSpec m.m_ImageName m.m_Measures ReplaceMeasures := by
  rw [update_eq load ReplaceMeasures m hEntered]
  exact ⟨rfl, (LoadImage_preserves load _ _ _).1⟩

/-- Witness of C14: the template `%1.png` bound to a measure of value `sunny` resolves to
`sunny.png`. -/
theorem Update_resolves_identifier_witness :
    (meterBound.Update loader100x50 replaceFirst true).1 = true ∧
      (meterBound.Update loader100x50 replaceFirst true).2.m_ImageNameResult = "sunny.png" :=
  Update_resolves_identifier loader100x50 replaceFirst meterBound (Or.inl (by decide))

/-- C15 (identifier-change detection). On an update tick with a measure bound or dynamic
variables on, `Update` is the call of `LoadImage` with the newly resolved identifier and
with the flag that tells whether the new identifier differs from the stored one, the two
being compared as C strings; when neither has a null character, that is whether they
differ as strings. And a second `Update` right after the first, with the same measures,
template and substitution, calls `LoadImage` with the flag `false` and leaves the stored
identifier unchanged. -/
theorem Update_reload_flag (load : Loader) (ReplaceMeasures : Replacer) (m : MeterImage)
    (hEntered : m.m_Measures ≠ [] ∨ m.m_DynamicVariables = true) :
    (m.Update load ReplaceMeasures true =
        (true,
          ({ m with m_ImageNameResult :=
              resolveIdentifierSpec m.m_ImageName m.m_Measures ReplaceMeasures }).LoadImage load
            (resolveIdentifierSpec m.m_ImageName m.m_Measures ReplaceMeasures)
            (decide (c_str (resolveIdentifierSpec m.m_ImageName m.m_Measures ReplaceMeasures) ≠
              c_str m.m_ImageNameResult)))) ∧
      (NulFree m.m_ImageNameResult →
        NulFree (resolveIdentifierSpec m.m_ImageName m.m_Measures ReplaceMeasures) →
        m.Update load ReplaceMeasures true =
          (true,
            ({ m with m_ImageNameResult :=
                resolveIdentifierSpec m.m_ImageName m.m_Measures ReplaceMeasures }).LoadImage load
              (resolveIdentifierSpec m.m_ImageName m.m_Measures ReplaceMeasures)
              (decide (resolveIdentifierSpec m.m_ImageName m.m_Measures ReplaceMeasures ≠
                m.m_ImageNameResult)))) ∧
      ((m.Update load ReplaceMeasures true).2.Update load ReplaceMeasures true =
        (true,
          (m.Update load ReplaceMeasures true).2.LoadImage load
            (m.Update load ReplaceMeasures true).2.m_ImageNameResult false)) ∧
      ((m.Update load ReplaceMeasures true).2.Update load ReplaceMeasures true).2.m_ImageNameResult
        = (m.Update load ReplaceMeasures true).2.m_ImageNameResult := by
  have h1 := update_eq load ReplaceMeasures m hEntered
  have hp := LoadImage_preserves load
    ({ m with m_ImageNameResult :=
        resolveIdentifierSpec m.m_ImageName m.m_Measures ReplaceMeasures })
    (resolveIdentifierSpec m.m_ImageName m.m_Measures ReplaceMeasures)
    (wcscmp (c_str m.m_ImageNameResult)
      (c_str (resolveIdentifierSpec m.m_ImageName m.m_Measures ReplaceMeasures)) != 0)
  have hEntered' : (m.Update load ReplaceMeasures true).2.m_Measures ≠ [] ∨
      (m.Update load ReplaceMeasures true).2.m_DynamicVariables = true := by
    rw [h1]
    simpa [hp.2.2.1, hp.2.2.2] using hEntered
  have hId : resolveIdentifierSpec (m.Update load ReplaceMeasures true).2.m_ImageName
      (m.Update load ReplaceMeasures true).2.m_Measures ReplaceMeasures =
      (m.Update load ReplaceMeasures true).2.m_ImageNameResult := by
    rw [h1]
    simp only [hp.1, hp.2.1, hp.2.2.1]
  have h2 := update_eq load ReplaceMeasures _ hEntered'
  rw [hId, wcscmp_self] at h2
  refine ⟨?_, ?_, ?_, ?_⟩
  · rw [h1, wcscmp_ne_zero]
  · intro hOld hNew
    rw [h1, wcscmp_ne_zero_iff hOld hNew]
  · exact h2
  · rw [h2]
    exact (LoadImage_preserves load _ _ _).1

/-- Witness of C15: the meter bound to `sunny` reloads on the first update (the identifier
goes from the empty string to `sunny.png`) and not on the second. -/
theorem Update_reload_flag_witness :
    (meterBound.Update loader100x50 replaceFirst true =
        (true,
          ({ meterBound with m_ImageNameResult := "sunny.png" }).LoadImage loader100x50
            "sunny.png" true)) ∧
      ((meterBound.Update loader100x50 replaceFirst true).2.Update loader100x50 replaceFirst true =
        (true,
          (meterBound.Update loader100x50 replaceFirst true).2.LoadImage loader100x50
            "sunny.png" false)) ∧
      ((meterBound.Update loader100x50 replaceFirst true).2.Update
        loader100x50 replaceFirst true).2.m_ImageNameResult = "sunny.png" :=
  ⟨(Update_reload_flag loader100x50 replaceFirst meterBound (Or.inl (by decide))).2.1
      (by decide) (by decide),
    (Update_reload_flag loader100x50 replaceFirst meterBound (Or.inl (by decide))).2.2⟩

/-- C16 (layout-mode selection from configuration). Whatever the pair of integers read for
`Tile` and `PreserveAspectRatio`, after `ReadOptions` the draw mode is Tile when
`Tile` is not 0, whatever the other value; otherwise None when `PreserveAspectRatio` is
0, KeepRatioAndCrop when it is 2, and KeepRatio for every other value, 1 and the
unrecognized codes, negative ones included. -/
theorem ReadOptions_drawMode (load : Loader) (m : MeterImage) (parser : ConfigParser) :
    (m.ReadOptions load parser).m_DrawMode =
      if parser.Tile ≠ 0 then DRAWMODE_TILE
      else if parser.PreserveAspectRatio = 0 then DRAWMODE_NONE
      else if parser.PreserveAspectRatio = 2 then DRAWMODE_KEEPRATIOANDCROP
      else DRAWMODE_KEEPRATIO := by
  have key : ∀ m2 : MeterImage,
      (if (m2.m_Initialized && m2.m_Measures.isEmpty && !m2.m_DynamicVariables) = true then
        { m2.Initialize load with m_NeedsRedraw := true }
      else m2).m_DrawMode = m2.m_DrawMode := by
    intro m2
    split
    · exact Initialize_drawMode load m2
    · rfl
  unfold MeterImage.ReadOptions
  refine (key _).trans ?_
  by_cases hT : parser.Tile = 0 <;> by_cases h0 : parser.PreserveAspectRatio = 0 <;>
    by_cases h2 : parser.PreserveAspectRatio = 2 <;> simp [hT, h0, h2]

/-- Witness of C16: `Tile=0` and `PreserveAspectRatio=-7` select KeepRatio. -/
theorem ReadOptions_drawMode_witness :
    (meterStretch.ReadOptions loader100x50 parserNegativeAspect).m_DrawMode =
      DRAWMODE_KEEPRATIO :=
  ReadOptions_drawMode loader100x50 meterStretch parserNegativeAspect

/-- C17 (the dimension resolver never divides by zero). Whatever the loader yields, natural
sizes with a zero width or height included, whatever the mode and the explicit flags,
`LoadImage` with every division checked has a result, the one of `LoadImage`: no
division by 0 is evaluated. And the derived dimension is 0 whenever the natural
dimension that would be the divisor is 0. -/
theorem LoadImage_never_divides_by_zero (load : Loader) (m : MeterImage) (imageName : String)
    (bLoadAlways : Bool) :
    m.LoadImageChecked load imageName bLoadAlways =
        some (m.LoadImage load imageName bLoadAlways) ∧
      ∀ iw ih, load m.m_Image imageName bLoadAlways = some ⟨iw, ih⟩ →
        (m.m_WDefined = true → m.m_HDefined = false → iw = 0 →
          (m.LoadImage load imageName bLoadAlways).m_H = 0) ∧
        (m.m_WDefined = false → m.m_HDefined = true → ih = 0 →
          (m.LoadImage load imageName bLoadAlways).m_W = 0) := by
  refine ⟨LoadImageChecked_eq load m imageName bLoadAlways, ?_⟩
  intro iw ih hLoaded
  constructor
  · intro hWD hHD hz
    simp [MeterImage.LoadImage, hLoaded, hWD, hHD, hz]
  · intro hWD hHD hz
    simp [MeterImage.LoadImage, hLoaded, hWD, hHD, hz]

/-- Witness of C17: a bitmap of width 0 under an explicit width of 200 gives the derived
height 0, without a division. -/
theorem LoadImage_never_divides_by_zero_witness :
    meterWidth200.LoadImageChecked loader0x50 sampleName true =
        some (meterWidth200.LoadImage loader0x50 sampleName true) ∧
      (meterWidth200.LoadImage loader0x50 sampleName true).m_H = 0 :=
  ⟨(LoadImage_never_divides_by_zero loader0x50 meterWidth200 sampleName true).1,
    ((LoadImage_never_divides_by_zero loader0x50 meterWidth200 sampleName true).2 0 50 rfl).1
      rfl rfl rfl⟩

/-- Counterexample to C18 as stated: with the explicit width 65536 and a 1 by 32768 bitmap,
both non-negative, the product `65536 * 32768` overflows the `int` and the derived
height is -2147483648. -/
theorem LoadImage_overflow_negative :
    meterWidth65536.m_WDefined = true ∧ meterWidth65536.m_HDefined = false ∧
      0 ≤ meterWidth65536.m_W ∧
      loader1x32768 meterWidth65536.m_Image sampleName true = some ⟨1, 32768⟩ ∧
      (meterWidth65536.LoadImage loader1x32768 sampleName true).m_H = -2147483648 ∧
      ¬ 0 ≤ (meterWidth65536.LoadImage loader1x32768 sampleName true).m_H := by
  decide

/-- C18 amended (target-size invariant). For a loaded bitmap of non-negative natural size
and a meter whose explicit dimensions are non-negative, provided the product the resolver
computes (`W * ih` when only the width is explicit, `H * iw` when only the height is,
outside mode Tile) does not exceed the largest `int`, the width and the height of the
meter after `LoadImage` are both non-negative. -/
theorem LoadImage_nonneg (load : Loader) (m : MeterImage) (imageName : String)
    (bLoadAlways : Bool) (iw ih : Int)
    (hLoaded : load m.m_Image imageName bLoadAlways = some ⟨iw, ih⟩)
    (hiw : 0 ≤ iw) (hih : 0 ≤ ih)
    (hW : m.m_WDefined = true → 0 ≤ m.m_W) (hH : m.m_HDefined = true → 0 ≤ m.m_H)
    (hFitW : m.m_WDefined = true → m.m_HDefined = false → m.m_DrawMode ≠ DRAWMODE_TILE →
      m.m_W * ih ≤ 2147483647)
    (hFitH : m.m_HDefined = true → m.m_WDefined = false → m.m_DrawMode ≠ DRAWMODE_TILE →
      m.m_H * iw ≤ 2147483647) :
    0 ≤ (m.LoadImage load imageName bLoadAlways).m_W ∧
      0 ≤ (m.LoadImage load imageName bLoadAlways).m_H := by
  have key : ∀ a b d : Int, 0 ≤ a → 0 ≤ b → 0 ≤ d → d ≠ 0 → a * b ≤ 2147483647 →
      0 ≤ idiv (imul a b) d := by
    intro a b d ha hb hd hd0 hab
    have hpos : 0 < d := by omega
    have h0 : 0 ≤ a * b := mul_nonneg ha hb
    rw [idiv_imul_eq_tdiv ⟨by omega, hab⟩ hpos]
    exact Int.tdiv_nonneg h0 hd
  cases hWD : m.m_WDefined <;> cases hHD : m.m_HDefined <;>
    simp only [MeterImage.LoadImage, hLoaded, hWD, hHD] <;> simp
  · exact ⟨hiw, hih⟩
  · refine ⟨?_, hH hHD⟩
    split_ifs with hz hTile
    · exact le_refl _
    · exact hiw
    · exact key _ _ _ (hH hHD) hiw hih hz (hFitH hHD hWD hTile)
  · refine ⟨hW hWD, ?_⟩
    split_ifs with hz hTile
    · exact le_refl _
    · exact hih
    · exact key _ _ _ (hW hWD) hih hiw hz (hFitW hWD hHD hTile)
  · exact ⟨hW hWD, hH hHD⟩

/-- Witness of C18 amended: natural size (100, 50) under the explicit width 200. -/
theorem LoadImage_nonneg_witness :
    0 ≤ (meterWidth200.LoadImage loader100x50 sampleName true).m_W ∧
      0 ≤ (meterWidth200.LoadImage loader100x50 sampleName true).m_H :=
  LoadImage_nonneg loader100x50 meterWidth200 sampleName true 100 50 rfl
    (by decide) (by decide) (fun _ => by decide) (fun _ => by decide)
    (fun _ _ _ => by decide) (fun _ _ _ => by decide)

/-- Counterexample to C19 as stated. First, a 10 by 10 meter without margins over a loaded
bitmap of size (0, 0) satisfies the conditions on the margins, yet `Draw` sends nothing,
so the areas of the destination rectangles sum to 0 and not to 100. Second, on a 4 by 4
meter over a 4 by 4 bitmap with the margins (2, 0, 2, 0), which fit, the centre is sent
although its area is 0: the regions of zero area are not all skipped. -/
theorem Draw_nineSlice_degenerate_gap :
    (meterEmptyBitmap.m_DrawMode = DRAWMODE_NONE ∧
      meterEmptyBitmap.m_Image = some ⟨0, 0⟩ ∧
      meterEmptyBitmap.m_ScaleMargins = ⟨0, 0, 0, 0⟩ ∧
      (0 : Int) + 0 ≤ min meterEmptyBitmap.m_W 0 ∧ (0 : Int) + 0 ≤ min meterEmptyBitmap.m_H 0 ∧
      emitted binary32 meterEmptyBitmap true = [] ∧
      ((emitted binary32 meterEmptyBitmap true).map (fun op => op.dst.area)).sum ≠
        meterEmptyBitmap.m_W * meterEmptyBitmap.m_H) ∧
      (meterThinCentre.m_DrawMode = DRAWMODE_NONE ∧
        meterThinCentre.m_Image = some ⟨4, 4⟩ ∧
        meterThinCentre.m_ScaleMargins = ⟨2, 0, 2, 0⟩ ∧
        (2 : Int) + 2 ≤ min meterThinCentre.m_W 4 ∧ (0 : Int) + 0 ≤ min meterThinCentre.m_H 4 ∧
        (emitted binary32 meterThinCentre true).get? 1 =
          some { src := ⟨2, 0, 0, 4⟩, dst := ⟨2, 0, 0, 4⟩, tiled := false } ∧
        Rect.area ⟨2, 0, 0, 4⟩ = 0) := by
  decide

/-- C19 amended (nine-slice is an exact partition when the margins fit). In mode None, for a
loaded bitmap and a meter whose sizes are non-zero, once the base draw check passed,
with non-negative margins such that `l + r ≤ min W iw` and `t + b ≤ min H ih`, the areas
of the destination rectangles of the operations `Draw` sends sum to exactly `W * H` and
the areas of their source rectangles to exactly `iw * ih`; and every region that is
skipped has a zero area. -/
theorem Draw_nineSlice_partition (A : RealArith) (m : MeterImage) (iw ih : Int)
    (hTyped : m.WellTyped)
    (hMode : m.m_DrawMode = DRAWMODE_NONE) (hImage : m.m_Image = some ⟨iw, ih⟩)
    (hiw : iw ≠ 0) (hih : ih ≠ 0) (hW : m.m_W ≠ 0) (hH : m.m_H ≠ 0)
    (hl : 0 ≤ m.m_ScaleMargins.left) (ht : 0 ≤ m.m_ScaleMargins.top)
    (hr : 0 ≤ m.m_ScaleMargins.right) (hb : 0 ≤ m.m_ScaleMargins.bottom)
    (hFitW : m.m_ScaleMargins.left + m.m_ScaleMargins.right ≤ min m.m_W iw)
    (hFitH : m.m_ScaleMargins.top + m.m_ScaleMargins.bottom ≤ min m.m_H ih) :
    ((emitted A m true).map (fun op => op.dst.area)).sum = m.m_W * m.m_H ∧
      ((emitted A m true).map (fun op => op.src.area)).sum = iw * ih ∧
      ∀ p ∈ nineSliceRegions m.m_X m.m_Y m.m_W m.m_H iw ih
          m.m_ScaleMargins.left m.m_ScaleMargins.top
          m.m_ScaleMargins.right m.m_ScaleMargins.bottom,
        p.1 = false → p.2.dst.area = 0 ∧ p.2.src.area = 0 := by
  obtain ⟨-, -, hW32, hH32, -, -, -, -, hbm⟩ := hTyped
  have hiw32 : IsInt32 iw := (hbm _ hImage).1
  have hih32 : IsInt32 ih := (hbm _ hImage).2
  have hSkipped := nineSliceRegions_skipped_area m.m_X m.m_Y m.m_W m.m_H iw ih _ _ _ _
    hl ht hr hb
  by_cases hFast : m.m_W = iw ∧ m.m_H = ih ∧ m.m_ScaleMargins = ⟨0, 0, 0, 0⟩
  · obtain ⟨e1, e2, e3⟩ := hFast
    refine ⟨?_, ?_, hSkipped⟩ <;>
      simp [emitted, MeterImage.Draw, hImage, hiw, hih, e1, e2, e3, Canvas.DrawBitmap, Rect.area]
  · have hArea := nineSliceSpec_area m.m_X m.m_Y m.m_W m.m_H iw ih _ _ _ _ hW32 hH32 hiw32
      hih32 hl ht hr hb (by omega) (by omega) (by omega) (by omega)
    rw [emitted, draw_none_eq A m [] iw ih hMode hImage hiw hih hW hH hFast]
    exact ⟨by simpa using hArea.1, by simpa using hArea.2, hSkipped⟩

/-- Witness of C19 amended: a 20 by 12 meter with the margins (2, 3, 4, 1) over a 10 by 10
bitmap. -/
theorem Draw_nineSlice_partition_witness :
    ((emitted binary32 meterNineSlice true).map (fun op => op.dst.area)).sum = 20 * 12 ∧
      ((emitted binary32 meterNineSlice true).map (fun op => op.src.area)).sum = 10 * 10 ∧
      ∀ p ∈ nineSliceRegions 5 6 20 12 10 10 2 3 4 1,
        p.1 = false → p.2.dst.area = 0 ∧ p.2.src.area = 0 :=
  Draw_nineSlice_partition binary32 meterNineSlice 10 10
    ⟨by decide, by decide, by decide, by decide, by decide, by decide, by decide, by decide,
      fun b hb => Option.some.inj hb ▸ by decide⟩
    rfl rfl (by decide) (by decide) (by decide) (by decide)
    (by decide) (by decide) (by decide) (by decide) (by decide) (by decide)

/-- Counterexample to C20 as stated: a 20 by 17 bitmap in a 98105665 by 83389813 meter,
both dimensions explicit, in mode KeepRatio, all sizes positive and no `int` product
overflowing. As exact numbers the ratio of the image is the smaller one; rounded to
`REAL` it is the greater one, so `Draw` computes the height
`98105665 * 17 / 20 = 83389815`, two more than the height of the target, at the vertical
offset `(83389813 - 83389815) / 2 = -1`, which is below 0. -/
theorem Draw_keepRatio_rounded_out_of_bounds :
    meterLarge.Draw binary32 true [] =
        (true, [{ src := ⟨0, 0, 20, 17⟩,
                  dst := ⟨0, -1, 98105665, 83389815⟩,
                  tiled := false }]) ∧
      ¬ DrawOp.InBounds { src := ⟨0, 0, 20, 17⟩,
                          dst := ⟨0, -1, 98105665, 83389815⟩,
                          tiled := false }
          meterLarge.m_X meterLarge.m_Y meterLarge.m_W meterLarge.m_H 20 17 := by
  constructor
  · decide
  · decide

/-- C20 amended (aspect-preserving operations stay in bounds, sizes that `REAL` holds
exactly). In modes KeepRatio and KeepRatioAndCrop, with the ratios compared as `Draw`
compares them, rounded to `REAL`, for a loaded bitmap and a meter whose sizes are all
positive and, when both dimensions are explicit, at most `2 ^ 24 = 16777216`, every
operation `Draw` sends stays in bounds: the offsets of its destination from the origin of
the meter are at least 0 and offset plus size is at most the target size on both axes,
and its source lies inside the natural rectangle in the same sense. -/
theorem Draw_aspect_inBounds (m : MeterImage) (baseDraw : Bool) (iw ih : Int)
    (hMode : m.m_DrawMode = DRAWMODE_KEEPRATIO ∨ m.m_DrawMode = DRAWMODE_KEEPRATIOANDCROP)
    (hImage : m.m_Image = some ⟨iw, ih⟩)
    (hiw : 0 < iw) (hih : 0 < ih) (hW : 0 < m.m_W) (hH : 0 < m.m_H)
    (hBound : m.m_WDefined = true → m.m_HDefined = true →
      m.m_W ≤ 16777216 ∧ m.m_H ≤ 16777216 ∧ iw ≤ 16777216 ∧ ih ≤ 16777216) :
    ∀ op ∈ emitted binary32 m baseDraw,
      op.InBounds m.m_X m.m_Y m.m_W m.m_H iw ih := by
  cases baseDraw with
  | false => simp [emitted, MeterImage.Draw]
  | true =>
    rcases hMode with hMode | hMode
    · have hEq := draw_keepRatio_eq m [] iw ih hMode hImage (by omega) (by omega) (by omega)
        (by omega)
      simp only [emitted, hEq, List.nil_append, List.mem_singleton, forall_eq]
      refine keepRatioDestReal_inBounds _ _ _ _ _ _ _ hiw hih hW hH ?_
      intro he
      simp only [Bool.and_eq_true] at he
      exact hBound he.1 he.2
    · have hEq := draw_keepRatioAndCrop_eq m [] iw ih hMode hImage (by omega) (by omega)
        (by omega) (by omega)
      simp only [emitted, hEq, List.nil_append, List.mem_singleton, forall_eq]
      split_ifs with hc
      · have he := hc.1
        simp only [Bool.and_eq_true] at he
        obtain ⟨bW, bH, biw, bih⟩ := hBound he.1 he.2
        exact keepRatioAndCropSrcReal_inBounds _ _ _ _ _ _ hiw hih hW hH bW bH biw bih hc.2
      · simp only [DrawOp.InBounds]
        unfold isub wrap32
        omega

/-- Witness of C20 amended: the letterboxed 100 by 100 bitmap in a 50 by 100 meter. -/
theorem Draw_aspect_inBounds_witness :
    List.Forall (fun op => op.InBounds 0 0 50 100 100 100)
      (emitted binary32 (meter50x100 DRAWMODE_KEEPRATIO) true) :=
  List.forall_iff_forall_mem.mpr
    (Draw_aspect_inBounds (meter50x100 DRAWMODE_KEEPRATIO) true 100 100
      (Or.inl rfl) rfl (by decide) (by decide) (by decide) (by decide)
      (fun _ _ => by decide))

end Rainmeter
